import Mathlib

/-!
# Verification of the cost-savings analysis engine

Shallow embedding of `aws_services/cost_savings_ai.py`: the statistics
primitives (`_linear_regression`, `_z_scores`, `_hhi`), the ten opportunity
analyzers, and the aggregator `generate_opportunities`.

Modelling conventions:
* Python floats are modelled as exact rationals (`ℚ`); `math.sqrt` and the
  quantities derived from it are modelled with `Real.sqrt` over `ℝ`.
* Python `round` (banker's rounding) is `roundHE` / `round2`.
* The Cost Explorer boundary is an `Env` of per-query `Except` results: a
  `.error` value models the corresponding fetch raising an exception, which is
  what the `try`/`except` block of `generate_opportunities` reacts to.
* Analyzers iterate association lists where the source iterates dicts; the
  dicts in question are built with unique keys, so lookup order agrees.
-/

/-- Python `round(x)` on a rational: round half to even (banker's rounding). -/
def roundHE (q : ℚ) : ℤ :=
  let f := ⌊q⌋
  if q - f < 1/2 then f
  else if (1/2 : ℚ) < q - f then f + 1
  else if f % 2 = 0 then f else f + 1

/-- Python `round(x, 2)` on a rational. -/
def round2 (q : ℚ) : ℚ := (roundHE (q * 100) : ℚ) / 100

/-- Python `round(x, 0)` / `round(x)`, result viewed as a rational. -/
def round0 (q : ℚ) : ℚ := (roundHE q : ℚ)

/-- Python `round(x)` on a real: round half to even (banker's rounding). -/
noncomputable def roundHER (x : ℝ) : ℤ :=
  let f := ⌊x⌋
  if x - f < 1/2 then f
  else if (1/2 : ℝ) < x - f then f + 1
  else if f % 2 = 0 then f else f + 1

/-- Fixed-point rendering of a rational with `p` decimal digits, modelling the
Python f-string conversions `:.2f` / `:.1f` / `:.0f`. -/
def fmtScaled (q : ℚ) (p : ℕ) : String :=
  let c : ℤ := roundHE (q * ((10 : ℚ) ^ p))
  let a := c.natAbs
  let ip := a / 10 ^ p
  let fp := a % 10 ^ p
  let fs := toString fp
  let pad := String.mk (List.replicate (p - fs.length) '0')
  (if c < 0 then "-" else "") ++ toString ip ++ (if p = 0 then "" else "." ++ pad ++ fs)

def fmt2 (q : ℚ) : String := fmtScaled q 2

def fmt1 (q : ℚ) : String := fmtScaled q 1

def fmt0 (q : ℚ) : String := fmtScaled q 0

/-- Fixed-point rendering of a real with `p` decimal digits. -/
noncomputable def fmtScaledR (x : ℝ) (p : ℕ) : String :=
  let c : ℤ := roundHER (x * ((10 : ℝ) ^ p))
  let a := c.natAbs
  let ip := a / 10 ^ p
  let fp := a % 10 ^ p
  let fs := toString fp
  let pad := String.mk (List.replicate (p - fs.length) '0')
  (if c < 0 then "-" else "") ++ toString ip ++ (if p = 0 then "" else "." ++ pad ++ fs)

noncomputable def fmtR1 (x : ℝ) : String := fmtScaledR x 1

/-- Python `max` of a non-empty list (`d` is returned on `[]`, a case the
source never reaches because `max` is only applied to non-empty slices). -/
def pymax (l : List ℚ) (d : ℚ) : ℚ :=
  match l with
  | [] => d
  | x :: xs => xs.foldl max x

/-- Real-valued Python `max`, for the z-score slices. -/
noncomputable def pymaxR (l : List ℝ) (d : ℝ) : ℝ :=
  match l with
  | [] => d
  | x :: xs => xs.foldl max x

/-- Python `dict.get(k, [])` over the association-list model of a dict. -/
def lookupD (m : List (String × List ℚ)) (k : String) : List ℚ :=
  ((m.lookup k).getD [])

/-- Calendar date, the result of `datetime.strptime(d["date"], "%Y-%m-%d")`.
The provider only ever hands the engine ISO-formatted dates, so the parse is
modelled as already done. -/
structure PyDate where
  year : ℕ
  month : ℕ
  day : ℕ
deriving DecidableEq, Inhabited

def isLeap (y : ℕ) : Bool := (y % 4 == 0 && y % 100 != 0) || y % 400 == 0

/-- Rata-die day number of a proleptic Gregorian date. -/
def rataDie (dt : PyDate) : ℤ :=
  let y : ℤ := (dt.year : ℤ) - 1
  365 * y + y / 4 - y / 100 + y / 400 + (367 * (dt.month : ℤ) - 362) / 12 +
    (if (dt.month : ℤ) ≤ 2 then 0 else if isLeap dt.year then -1 else -2) + (dt.day : ℤ)

/-- Python `datetime.weekday()`: Monday = 0, ..., Sunday = 6. -/
def pyWeekday (dt : PyDate) : ℤ := (rataDie dt - 1) % 7

/-- The opportunity record produced by every analyzer. -/
structure Opportunity where
  id : String
  title : String
  description : String
  category : String
  priority : String
  estimated_savings : ℚ
  confidence : ℚ
  icon : String
  actions : List String
deriving DecidableEq, Inhabited

structure CostPoint where
  date : PyDate
  cost : ℚ
deriving DecidableEq, Inhabited

structure ServiceCost where
  service : String
  cost : ℚ
deriving DecidableEq, Inhabited

structure RegionCost where
  region : String
  cost : ℚ
deriving DecidableEq, Inhabited

structure UsageTypeCost where
  usage_type : String
  cost : ℚ
deriving DecidableEq, Inhabited

structure MonthCost where
  month : String
  cost : ℚ
deriving DecidableEq, Inhabited

/-- Result of `_fetch_daily_service_costs`. -/
structure DailySvc where
  dates : List PyDate
  services : List String
  data : List (String × List ℚ)
deriving DecidableEq, Inhabited

/-- One record of the Savings Plans coverage response. -/
structure CoverageRec where
  coverage_percentage : ℚ
  on_demand_cost : ℚ
deriving DecidableEq, Inhabited

/-- The Cost Data Provider boundary: the result of each read-only query made
by `generate_opportunities`, where `.error e` models the query raising an
exception whose text is `e`. -/
structure Env where
  daily : Except String (List CostPoint)
  services : Except String (List ServiceCost)
  regions : Except String (List RegionCost)
  usage_types : Except String (List UsageTypeCost)
  monthly : Except String (List MonthCost)
  daily_svc : Except String DailySvc
  coverage : Except String (List CoverageRec)

/-- `mean_x` of `_linear_regression`: mean of `xs = list(range(n))`. -/
def lrMeanX (n : ℕ) : ℚ := (∑ i ∈ Finset.range n, (i : ℚ)) / n

/-- `mean_y` of `_linear_regression`. -/
def lrMeanY (ys : List ℚ) : ℚ := ys.sum / ys.length

/-- `ss_xy` of `_linear_regression`: `zip(xs, ys)` pairs `i` with `ys[i]` for
`i < n`, so the sum ranges over `i ∈ [0, n)`. -/
def lrSSxy (ys : List ℚ) : ℚ :=
  ∑ i ∈ Finset.range ys.length, ((i : ℚ) - lrMeanX ys.length) * (ys.getD i 0 - lrMeanY ys)

/-- `ss_xx` of `_linear_regression`. -/
def lrSSxx (n : ℕ) : ℚ := ∑ i ∈ Finset.range n, ((i : ℚ) - lrMeanX n) ^ 2

/-- `ss_yy` of `_linear_regression`. -/
def lrSSyy (ys : List ℚ) : ℚ := (ys.map (fun y => (y - lrMeanY ys) ^ 2)).sum

/-- `_linear_regression(ys)`: OLS of `ys` against `x = 0..n-1`, returning
`(slope, r_squared)`; `(0, 0)` on fewer than 3 points or zero x-variance,
and `r_squared = 0` when the y-variance is zero. -/
def _linear_regression (ys : List ℚ) : ℚ × ℚ :=
  if ys.length < 3 then (0, 0) else
    if lrSSxx ys.length = 0 then (0, 0) else
      (lrSSxy ys / lrSSxx ys.length,
        if lrSSyy ys = 0 then 0 else lrSSxy ys ^ 2 / (lrSSxx ys.length * lrSSyy ys))

/-- `_z_scores(values)`: z-scores of a series; all-zero below 3 points, and a
standard deviation of `0` is replaced by `1` (`... or 1`). -/
noncomputable def _z_scores (values : List ℚ) : List ℝ :=
  let n := values.length
  if n < 3 then List.replicate n 0 else
    let mean : ℝ := ((values.sum : ℚ) : ℝ) / n
    let s : ℝ := Real.sqrt ((values.map (fun v => ((v : ℝ) - mean) ^ 2)).sum / n)
    let std : ℝ := if s = 0 then 1 else s
    values.map (fun v => ((v : ℝ) - mean) / std)

/-- `_hhi(shares)`: Herfindahl-Hirschman index, the sum of squared percentage
shares, with a zero total replaced by `1` (`sum(shares) or 1`). -/
def _hhi (shares : List ℚ) : ℚ :=
  let total := if shares.sum = 0 then 1 else shares.sum
  (shares.map (fun s => (s / total * 100) ^ 2)).sum

/-- The `trend-001` opportunity of `_analyse_cost_trend`. -/
def trendOpp (slope r_sq pct_increase projected_30d_increase : ℚ) : Opportunity :=
  { id := "trend-001"
    title := "Rising Cost Trend Detected"
    description := "AI analysis shows daily spend is increasing by ~$" ++ fmt2 slope ++
      "/day (R²=" ++ fmt2 r_sq ++ "). At this rate, costs will rise " ++ fmt0 pct_increase ++
      "% over the next 30 days — an additional ~$" ++ fmt2 projected_30d_increase ++ "."
    category := "trend"
    priority := if pct_increase > 20 then "critical" else "high"
    estimated_savings := round2 (projected_30d_increase * 0.4)
    confidence := round0 (r_sq * 100)
    icon := "bi-graph-up-arrow"
    actions := ["Review new resources launched in the last 14 days",
      "Set up AWS Budget alerts at current spend level",
      "Investigate top-growing services for optimization"] }

/-- The `trend-002` week-over-week opportunity of `_analyse_cost_trend`. -/
def wowOpp (recent prior wow_pct : ℚ) : Opportunity :=
  { id := "trend-002"
    title := "Week-over-Week Spend Spike (" ++ fmt0 wow_pct ++ "%)"
    description := "Last 7 days total $" ++ fmt2 recent ++ " vs prior 7 days $" ++
      fmt2 prior ++ ". This " ++ fmt0 wow_pct ++ "% jump needs immediate investigation."
    category := "anomaly"
    priority := if wow_pct > 40 then "critical" else "high"
    estimated_savings := round2 ((recent - prior) * 0.5)
    confidence := 85
    icon := "bi-exclamation-diamond"
    actions := ["Compare service-by-service costs for last 7 vs prior 7 days",
      "Check for any new deployments or auto-scaling events",
      "Review CloudTrail for unusual API activity"] }

/-- `_analyse_cost_trend(daily)`. -/
def _analyse_cost_trend (daily : List CostPoint) : List Opportunity :=
  if daily.length < 14 then [] else
    let costs := daily.map (·.cost)
    let sr := _linear_regression costs
    let slope := sr.1
    let r_sq := sr.2
    let avg := costs.sum / costs.length
    (if slope > 0 ∧ r_sq > 0.3 ∧ avg > 0 then
      let projected_30d_increase := slope * 30
      let pct_increase := projected_30d_increase / avg * 100
      if pct_increase > 5 then [trendOpp slope r_sq pct_increase projected_30d_increase]
      else []
    else []) ++
    (if 14 ≤ costs.length then
      let recent := (costs.drop (costs.length - 7)).sum
      let prior := ((costs.drop (costs.length - 14)).take 7).sum
      if 0 < prior then
        let wow_pct := (recent - prior) / prior * 100
        if wow_pct > 15 then [wowOpp recent prior wow_pct] else []
      else []
    else [])

/-- The `conc-001` opportunity of `_analyse_service_concentration`. -/
def concOpp (top : ServiceCost) (share hhi : ℚ) : Opportunity :=
  { id := "conc-001"
    title := "High Spend Concentration: " ++ top.service
    description := top.service ++ " accounts for " ++ fmt0 share ++ "% of total spend ($" ++
      fmt2 top.cost ++ "). High concentration (HHI=" ++ fmt0 hhi ++
      ") increases risk — optimizing this one service can dramatically cut costs."
    category := "optimization"
    priority := if share > 60 then "high" else "medium"
    estimated_savings := round2 (top.cost * 0.15)
    confidence := 80
    icon := "bi-pie-chart"
    actions := ["Deep-dive into " ++ top.service ++ " usage-type breakdown",
      "Evaluate Reserved Instances or Savings Plans for this service",
      "Check for over-provisioned or idle resources"] }

/-- `_analyse_service_concentration(services)`. -/
def _analyse_service_concentration (services : List ServiceCost) : List Opportunity :=
  if services = [] then [] else
    let costs := (services.filter (fun s => decide (0 < s.cost))).map (·.cost)
    let total := if costs.sum = 0 then 1 else costs.sum
    let hhi := _hhi costs
    if hhi > 2500 ∧ 2 ≤ services.length then
      let top := services.headD default
      let share := top.cost / total * 100
      [concOpp top share hhi]
    else []

/-- Python `str.replace`: replace the non-overlapping occurrences of `pat`
left to right.  Fuel-based structural recursion (fuel = length of the
string); an empty pattern is treated as no-op, a case no call site uses. -/
def replaceFuel (pat rep : List Char) : ℕ → List Char → List Char
  | _, [] => []
  | 0, s => s
  | fuel + 1, c :: rest =>
    if pat.isPrefixOf (c :: rest) ∧ pat ≠ [] then
      rep ++ replaceFuel pat rep fuel ((c :: rest).drop pat.length)
    else
      c :: replaceFuel pat rep fuel rest

def pyReplace (s pat rep : String) : String :=
  String.mk (replaceFuel pat.data rep.data s.data.length s.data)

/-- Python `str.lower()` (over the ASCII service/usage-type names this code
handles). -/
def pyLower (s : String) : String := String.mk (s.data.map Char.toLower)

/-- The Python transformation `svc.replace("Amazon ", "").replace("AWS ", "")`. -/
def shorten (svc : String) : String := pyReplace (pyReplace svc "Amazon " "") "AWS " ""

/-- The `spike-*` opportunity of `_analyse_service_spikes`. -/
noncomputable def spikeOpp (svc_short : String) (peak_cost avg_cost excess : ℚ)
    (recent_max_z : ℝ) : Opportunity :=
  { id := "spike-" ++ pyLower (pyReplace (svc_short.take 15) " " "-")
    title := "Cost Spike in " ++ svc_short
    description := "Anomalous spend detected for " ++ svc_short ++ " — peak $" ++
      fmt2 peak_cost ++ "/day vs avg $" ++ fmt2 avg_cost ++ "/day (z-score " ++
      fmtR1 recent_max_z ++ "). Investigate for unexpected usage."
    category := "anomaly"
    priority := if recent_max_z > 3 then "high" else "medium"
    estimated_savings := round2 (excess * 7)
    confidence := ((min 95 (roundHER (50 + recent_max_z * 15)) : ℤ) : ℚ)
    icon := "bi-lightning"
    actions := ["Review " ++ svc_short ++ " CloudWatch metrics for the spike period",
      "Check auto-scaling events or new resource launches",
      "Set a per-service budget alert for " ++ svc_short] }

/-- The body of the per-service loop of `_analyse_service_spikes`. -/
noncomputable def spikePerService (daily_svc : DailySvc) (svc : String) : List Opportunity :=
  let costs := lookupD daily_svc.data svc
  if costs.length < 7 then [] else
    let zs := _z_scores costs
    let last7 := zs.drop (zs.length - 7)
    let recent_max_z : ℝ := if zs = [] then 0 else pymaxR last7 0
    if recent_max_z > 2 then
      let peak_day_idx := costs.length - 7 + last7.indexOf (pymaxR last7 0)
      let peak_cost := costs.getD peak_day_idx 0
      let avg_cost := costs.sum / costs.length
      let excess := peak_cost - avg_cost
      if excess > 0.5 then [spikeOpp (shorten svc) peak_cost avg_cost excess recent_max_z]
      else []
    else []

/-- `_analyse_service_spikes(daily_svc)`. -/
noncomputable def _analyse_service_spikes (daily_svc : DailySvc) : List Opportunity :=
  daily_svc.services.flatMap (spikePerService daily_svc)

/-- The `region-*` opportunity of `_analyse_region_waste`. -/
def regionOpp (r primary : RegionCost) (share : ℚ) : Opportunity :=
  { id := "region-" ++ r.region.take 20
    title := "Low-Utilization Region: " ++ r.region
    description := r.region ++ " has $" ++ fmt2 r.cost ++ " spend (" ++ fmt1 share ++
      "% of total). Secondary regions often contain forgotten test environments or " ++
      "unoptimized replicas. Consolidating to " ++ primary.region ++ " could save costs."
    category := "infrastructure"
    priority := "medium"
    estimated_savings := round2 (r.cost * 0.3)
    confidence := 60
    icon := "bi-globe-americas"
    actions := ["Audit all resources in " ++ r.region,
      "Identify and terminate unused dev/test resources",
      "Consider moving workloads to " ++ primary.region ++ " if latency permits"] }

/-- `_analyse_region_waste(regions)`. -/
def _analyse_region_waste (regions : List RegionCost) : List Opportunity :=
  if regions.length < 2 then [] else
    let total := if (regions.map (·.cost)).sum = 0 then 1 else (regions.map (·.cost)).sum
    let primary := regions.headD default
    (regions.drop 1).flatMap (fun r =>
      let share := r.cost / total * 100
      if 1 < share ∧ share < 15 ∧ r.cost > 5 then [regionOpp r primary share] else [])

/-- Python `needle in hay` on strings (substring containment). -/
def containsSub (hay needle : String) : Bool :=
  (List.range (hay.toList.length + 1)).any (fun i => needle.toList.isPrefixOf (hay.toList.drop i))

def dtKeywords : List String := ["datatransfer", "data-transfer", "cloudfront", "nat-gateway", "bytes"]

/-- The `dt-001` opportunity of `_analyse_data_transfer`. -/
def dtOpp (dt_cost : ℚ) (n_items : ℕ) : Opportunity :=
  { id := "dt-001"
    title := "Data Transfer Costs: $" ++ fmt2 dt_cost
    description := "Data transfer charges total $" ++ fmt2 dt_cost ++ " across " ++
      toString n_items ++ " usage types. Common savings: use VPC endpoints, CloudFront " ++
      "caching, S3 Transfer Acceleration, or consolidate cross-AZ traffic."
    category := "networking"
    priority := if dt_cost > 100 then "high" else "medium"
    estimated_savings := round2 (dt_cost * 0.25)
    confidence := 70
    icon := "bi-arrow-left-right"
    actions := ["Enable VPC Endpoints for S3 and DynamoDB",
      "Review NAT Gateway usage — consider NAT instances for dev",
      "Use CloudFront to cache static content and reduce origin fetches",
      "Consolidate cross-AZ data transfers where possible"] }

/-- `_analyse_data_transfer(usage_types)`. -/
def _analyse_data_transfer (usage_types : List UsageTypeCost) : List Opportunity :=
  let dt_items := usage_types.filter
    (fun u => dtKeywords.any (fun kw => containsSub (pyLower u.usage_type) kw))
  let dt_cost := (dt_items.map (·.cost)).sum
  if dt_cost > 10 then [dtOpp dt_cost dt_items.length] else []

/-- The `idle-*` opportunity of `_analyse_idle_services`. -/
def idleOpp (svc_short : String) (cost avg_daily : ℚ) : Opportunity :=
  { id := "idle-" ++ pyLower (pyReplace (svc_short.take 15) " " "-")
    title := "Potential Idle Resources: " ++ svc_short
    description := svc_short ++ " has flat daily spend (~$" ++ fmt2 avg_daily ++
      "/day), suggesting idle or underutilized resources. Total: $" ++ fmt2 cost ++ "/month."
    category := "waste"
    priority := if cost > 15 then "medium" else "low"
    estimated_savings := round2 (cost * 0.6)
    confidence := 55
    icon := "bi-moon-stars"
    actions := ["Review active resources under " ++ svc_short,
      "Terminate unused EC2 instances, EBS volumes, or Elastic IPs",
      "Set up scheduled stop/start for non-production resources"] }

/-- The `std` expression of `_analyse_idle_services`:
`math.sqrt(sum((d - cost / max(len(daily), 1)) ** 2 for d in daily) / max(len(daily), 1))`.
The deviations are taken from `cost / len(daily)`, not from the mean of
`daily`. -/
noncomputable def idleStd (daily : List ℚ) (cost : ℚ) : ℝ :=
  Real.sqrt ((daily.map
    (fun d => ((d : ℝ) - (cost : ℝ) / (max daily.length 1 : ℕ)) ^ 2)).sum /
    (max daily.length 1 : ℕ))

/-- The body of the per-service loop of `_analyse_idle_services`. -/
noncomputable def idlePerService (daily_svc : DailySvc) (svc_item : ServiceCost) :
    List Opportunity :=
  let cost := svc_item.cost
  let svc := svc_item.service
  let svc_short := shorten svc
  let daily := lookupD daily_svc.data svc
  if 0.5 < cost ∧ cost < 50 ∧ 7 ≤ daily.length then
    let std : ℝ := if daily = [] then 0 else idleStd daily cost
    let avg_daily := cost / 30
    if std < (avg_daily : ℝ) * 0.5 ∧ avg_daily > 0.01 then [idleOpp svc_short cost avg_daily]
    else []
  else []

/-- `_analyse_idle_services(services, daily_svc)`, with its local `[:5]` cap. -/
noncomputable def _analyse_idle_services (services : List ServiceCost) (daily_svc : DailySvc) :
    List Opportunity :=
  (services.flatMap (idlePerService daily_svc)).take 5

/-- The `grow-001` opportunity of `_analyse_monthly_growth`. -/
def growOpp (slope r_sq growth_pct : ℚ) (n_months : ℕ) : Opportunity :=
  { id := "grow-001"
    title := "Sustained Monthly Growth (" ++ fmt0 growth_pct ++ "%/month)"
    description := "ML trend analysis over " ++ toString n_months ++
      " months shows costs growing ~$" ++ fmt2 slope ++ "/month (" ++ fmt0 growth_pct ++
      "% MoM). Without intervention, next quarter spend may increase by ~$" ++
      fmt2 (slope * 3) ++ "."
    category := "trend"
    priority := if growth_pct > 15 then "high" else "medium"
    estimated_savings := round2 (slope * 3 * 0.35)
    confidence := round0 (r_sq * 100)
    icon := "bi-arrow-up-right-circle"
    actions := ["Implement cost allocation tags for all resources",
      "Review and right-size EC2 instances monthly",
      "Establish a FinOps review cadence (weekly/biweekly)"] }

/-- `_analyse_monthly_growth(monthly)`. -/
def _analyse_monthly_growth (monthly : List MonthCost) : List Opportunity :=
  if monthly.length < 3 then [] else
    let costs := monthly.map (·.cost)
    let sr := _linear_regression costs
    let slope := sr.1
    let r_sq := sr.2
    if slope > 0 ∧ r_sq > 0.4 then
      let avg := costs.sum / costs.length
      let growth_pct := if avg = 0 then 0 else slope / avg * 100
      if growth_pct > 8 then [growOpp slope r_sq growth_pct monthly.length] else []
    else []

/-- The `sched-001` opportunity of `_analyse_scheduling_opportunities`. -/
def schedOpp1 (avg_weekday avg_weekend weekend_excess : ℚ) : Opportunity :=
  { id := "sched-001"
    title := "Weekend Scheduling Opportunity"
    description := "Weekend spend avg $" ++ fmt2 avg_weekend ++
      "/day is close to weekday avg $" ++ fmt2 avg_weekday ++
      "/day, suggesting non-production resources run 24/7. Scheduling shutdowns could save ~$" ++
      fmt2 weekend_excess ++ "/month."
    category := "scheduling"
    priority := "medium"
    estimated_savings := round2 weekend_excess
    confidence := 65
    icon := "bi-clock-history"
    actions := ["Tag dev/test resources with auto-stop schedules",
      "Use AWS Instance Scheduler for EC2 and RDS",
      "Create Lambda functions to stop/start non-prod resources"] }

/-- The `sched-002` opportunity of `_analyse_scheduling_opportunities`. -/
noncomputable def schedOpp2 (cv : ℝ) (avg_weekday : ℚ) : Opportunity :=
  { id := "sched-002"
    title := "Flat Spend Pattern — Schedule Optimization"
    description := "Daily costs are remarkably consistent (CV=" ++ fmtScaledR cv 2 ++
      "), indicating 24/7 operation. For non-production workloads, scheduling 12-hour " ++
      "run windows could cut costs by ~40%."
    category := "scheduling"
    priority := "medium"
    estimated_savings := round2 (avg_weekday * 30 * 0.35)
    confidence := 60
    icon := "bi-calendar-range"
    actions := ["Identify non-production workloads running 24/7",
      "Implement 12-hour run schedules for dev/staging",
      "Use AWS Instance Scheduler or custom Lambda"] }

/-- `_analyse_scheduling_opportunities(daily)`. -/
noncomputable def _analyse_scheduling_opportunities (daily : List CostPoint) :
    List Opportunity :=
  if daily.length < 14 then [] else
    let weekday_costs := (daily.filter (fun d => decide (pyWeekday d.date < 5))).map (·.cost)
    let weekend_costs := (daily.filter (fun d => !decide (pyWeekday d.date < 5))).map (·.cost)
    if weekday_costs = [] ∨ weekend_costs = [] then [] else
      let avg_weekday := weekday_costs.sum / weekday_costs.length
      let avg_weekend := weekend_costs.sum / weekend_costs.length
      (if avg_weekday > 0 ∧ avg_weekend > avg_weekday * 0.6 then
        let weekend_excess := (avg_weekend - avg_weekday * 0.3) * 8
        if weekend_excess > 5 then [schedOpp1 avg_weekday avg_weekend weekend_excess] else []
      else []) ++
      (if avg_weekday > 0 then
        let cv : ℝ := Real.sqrt
            (((weekday_costs.map (fun c => (c - avg_weekday) ^ 2)).sum /
              weekday_costs.length : ℚ)) / (avg_weekday : ℚ)
        if cv < 0.15 ∧ avg_weekday > 5 then [schedOpp2 cv avg_weekday] else []
      else [])

def storageKeywords : List String := ["storage", "ebs", "s3", "snapshot", "backup"]

/-- The `stor-001` opportunity of `_analyse_storage_optimization`. -/
def storOpp (storage_cost : ℚ) : Opportunity :=
  { id := "stor-001"
    title := "Storage Optimization: $" ++ fmt2 storage_cost
    description := "Storage-related costs total $" ++ fmt2 storage_cost ++
      ". ML analysis suggests reviewing S3 lifecycle policies, EBS snapshot retention, " ++
      "and moving infrequently-accessed data to S3 Glacier or Intelligent-Tiering."
    category := "storage"
    priority := if storage_cost > 100 then "high" else "medium"
    estimated_savings := round2 (storage_cost * 0.3)
    confidence := 72
    icon := "bi-device-hdd"
    actions := ["Enable S3 Intelligent-Tiering on frequently written buckets",
      "Set S3 lifecycle policies to move old objects to Glacier",
      "Delete orphaned EBS snapshots older than 90 days",
      "Review and clean up unused AMIs"] }

/-- `_analyse_storage_optimization(usage_types)`. -/
def _analyse_storage_optimization (usage_types : List UsageTypeCost) : List Opportunity :=
  let storage_items := usage_types.filter
    (fun u => storageKeywords.any (fun kw => containsSub (pyLower u.usage_type) kw))
  let storage_cost := (storage_items.map (·.cost)).sum
  if storage_cost > 10 then [storOpp storage_cost] else []

/-- The `sp-001` opportunity of `_analyse_savings_plan_coverage`. -/
def spOpp (pct on_demand potential : ℚ) : Opportunity :=
  { id := "sp-001"
    title := "Low Savings Plans Coverage (" ++ fmt0 pct ++ "%)"
    description := "Only " ++ fmt0 pct ++ "% of eligible spend is covered by Savings Plans. " ++
      "On-demand spend is $" ++ fmt2 on_demand ++ ". Purchasing Compute Savings Plans " ++
      "could save up to $" ++ fmt2 potential ++ "/month (~25% on uncovered spend)."
    category := "commitment"
    priority := if pct < 30 then "critical" else "high"
    estimated_savings := round2 potential
    confidence := 88
    icon := "bi-piggy-bank"
    actions := ["Review AWS Savings Plans recommendations in Cost Explorer",
      "Start with 1-year No Upfront Compute Savings Plan",
      "Target services with stable baseline: EC2, Fargate, Lambda",
      "Purchase gradually — cover 60-80% of baseline first"] }

/-- The body of the per-record loop of `_analyse_savings_plan_coverage`. -/
def coveragePerRec (result : CoverageRec) : List Opportunity :=
  let pct := result.coverage_percentage
  let on_demand := result.on_demand_cost
  if pct < 60 ∧ on_demand > 50 then
    let potential := on_demand * 0.25
    [spOpp pct on_demand potential]
  else []

/-- `_analyse_savings_plan_coverage()`: the one analyzer that performs its own
fetch inside its own `try`/`except`, so a failing coverage query is swallowed
and simply yields no opportunities. -/
def _analyse_savings_plan_coverage (cov : Except String (List CoverageRec)) :
    List Opportunity :=
  match cov with
  | .error _ => []
  | .ok resp => resp.flatMap coveragePerRec

/-- The synthetic `err-001` opportunity appended by the `except` handler of
`generate_opportunities`. -/
def errOpp (exc : String) : Opportunity :=
  { id := "err-001"
    title := "Analysis Incomplete"
    description := "Some analyses could not complete: " ++ exc
    category := "system"
    priority := "low"
    estimated_savings := 0
    confidence := 0
    icon := "bi-exclamation-triangle"
    actions := [] }

/-- The `seen`-set loop of `generate_opportunities`: keep the first occurrence
of each `id`. -/
def dedupAux (seen : List String) : List Opportunity → List Opportunity
  | [] => []
  | o :: rest =>
    if o.id ∈ seen then dedupAux seen rest
    else o :: dedupAux (o.id :: seen) rest

def dedupById (l : List Opportunity) : List Opportunity := dedupAux [] l

/-- Stable insertion used to model `list.sort(key=..., reverse=True)`:
an element is placed before the first strictly-smaller-or-equal key, so
elements with equal `estimated_savings` keep their original relative order,
exactly as Python's stable sort does. -/
def insertDesc (x : Opportunity) : List Opportunity → List Opportunity
  | [] => [x]
  | y :: ys =>
    if y.estimated_savings ≤ x.estimated_savings then x :: y :: ys
    else y :: insertDesc x ys

/-- `unique.sort(key=lambda x: x["estimated_savings"], reverse=True)`:
the unique stable descending sort. -/
def sortBySavingsDesc (l : List Opportunity) : List Opportunity := l.foldr insertDesc []

/-- The de-duplicate-then-sort epilogue of `generate_opportunities`. -/
def postprocess (l : List Opportunity) : List Opportunity := sortBySavingsDesc (dedupById l)

/-- The `try` block of `generate_opportunities`: the six data fetches in
source order, then the ten analyzers in source order.  The first failing
fetch aborts the block, exactly as a raised exception does. -/
noncomputable def runBlock (env : Env) : Except String (List Opportunity) := do
  let daily ← env.daily
  let services ← env.services
  let regions ← env.regions
  let usage_types ← env.usage_types
  let monthly ← env.monthly
  let daily_svc ← env.daily_svc
  return _analyse_cost_trend daily ++
    _analyse_service_concentration services ++
    _analyse_service_spikes daily_svc ++
    _analyse_region_waste regions ++
    _analyse_data_transfer usage_types ++
    _analyse_idle_services services daily_svc ++
    _analyse_monthly_growth monthly ++
    _analyse_scheduling_opportunities daily ++
    _analyse_storage_optimization usage_types ++
    _analyse_savings_plan_coverage env.coverage

/-- `generate_opportunities()`: run the guarded block, convert a failure into
the single synthetic opportunity, then de-duplicate by id and sort by
estimated savings descending. -/
noncomputable def generate_opportunities (env : Env) : List Opportunity :=
  match runBlock env with
  | .ok opportunities => postprocess opportunities
  | .error exc => postprocess [errOpp exc]

/-! ## Helper lemmas about the de-duplication and the stable descending sort -/

theorem insertDesc_perm (x : Opportunity) (l : List Opportunity) :
    List.Perm (insertDesc x l) (x :: l) := by
  induction l with
  | nil => rfl
  | cons y ys ih =>
    simp only [insertDesc]
    split
    · exact List.Perm.refl _
    · exact (ih.cons y).trans (List.Perm.swap x y ys)

theorem sortBySavingsDesc_perm (l : List Opportunity) : List.Perm (sortBySavingsDesc l) l := by
  induction l with
  | nil => rfl
  | cons x xs ih =>
    exact (insertDesc_perm x (sortBySavingsDesc xs)).trans (ih.cons x)

theorem insertDesc_pairwise (x : Opportunity) (l : List Opportunity)
    (h : l.Pairwise (fun a b => b.estimated_savings ≤ a.estimated_savings)) :
    (insertDesc x l).Pairwise (fun a b => b.estimated_savings ≤ a.estimated_savings) := by
  induction l with
  | nil => simp [insertDesc]
  | cons y ys ih =>
    simp only [insertDesc]
    split
    · rename_i hxy
      refine List.Pairwise.cons ?_ h
      intro z hz
      rcases List.mem_cons.mp hz with rfl | hz2
      · exact hxy
      · exact le_trans (List.rel_of_pairwise_cons h hz2) hxy
    · rename_i hxy
      have hlt := lt_of_not_le hxy
      have hcons := List.pairwise_cons.mp h
      refine List.pairwise_cons.mpr ⟨?_, ih hcons.2⟩
      intro z hz
      rcases List.mem_cons.mp ((insertDesc_perm x ys).mem_iff.mp hz) with rfl | hz2
      · exact hlt.le
      · exact hcons.1 z hz2

theorem sortBySavingsDesc_pairwise (l : List Opportunity) :
    (sortBySavingsDesc l).Pairwise (fun a b => b.estimated_savings ≤ a.estimated_savings) := by
  induction l with
  | nil => simp [sortBySavingsDesc]
  | cons x xs ih => exact insertDesc_pairwise x (sortBySavingsDesc xs) ih

theorem insertDesc_filter (q : ℚ) (x : Opportunity) (l : List Opportunity) :
    (insertDesc x l).filter (fun o => decide (o.estimated_savings = q)) =
      if x.estimated_savings = q
      then x :: l.filter (fun o => decide (o.estimated_savings = q))
      else l.filter (fun o => decide (o.estimated_savings = q)) := by
  induction l with
  | nil =>
    by_cases hx : x.estimated_savings = q <;> simp [insertDesc, List.filter_cons, hx]
  | cons y ys ih =>
    simp only [insertDesc]
    split
    · rename_i hyx
      by_cases hx : x.estimated_savings = q <;> simp [List.filter, hx]
    · rename_i hyx
      have hlt := lt_of_not_le hyx
      by_cases hx : x.estimated_savings = q
      · have hy : ¬ y.estimated_savings = q := by
          intro hy
          exact absurd (hy ▸ hlt) (by simp [hx])
        simp [List.filter_cons, hy, ih, hx]
      · by_cases hy : y.estimated_savings = q <;> simp [List.filter_cons, hy, ih, hx]

theorem sortBySavingsDesc_filter (l : List Opportunity) (q : ℚ) :
    (sortBySavingsDesc l).filter (fun o => decide (o.estimated_savings = q)) =
      l.filter (fun o => decide (o.estimated_savings = q)) := by
  induction l with
  | nil => rfl
  | cons x xs ih =>
    show (insertDesc x (sortBySavingsDesc xs)).filter _ = _
    rw [insertDesc_filter]
    by_cases hx : x.estimated_savings = q <;> simp [List.filter_cons, hx, ih]

theorem mem_of_mem_dedupAux {o : Opportunity} :
    ∀ {seen : List String} {l : List Opportunity}, o ∈ dedupAux seen l → o ∈ l := by
  intro seen l
  induction l generalizing seen with
  | nil => simp [dedupAux]
  | cons x xs ih =>
    intro h
    simp only [dedupAux] at h
    split at h
    · exact List.mem_cons_of_mem x (ih h)
    · rcases List.mem_cons.mp h with rfl | h2
      · exact List.mem_cons_self _ _
      · exact List.mem_cons_of_mem x (ih h2)

theorem dedupAux_id_nodup :
    ∀ (l : List Opportunity) (seen : List String),
      ((dedupAux seen l).map (·.id)).Nodup ∧
        ∀ s ∈ seen, s ∉ (dedupAux seen l).map (·.id) := by
  intro l
  induction l with
  | nil => intro seen; simp [dedupAux]
  | cons x xs ih =>
    intro seen
    simp only [dedupAux]
    split
    · exact ih seen
    · rename_i hx
      obtain ⟨h1, h2⟩ := ih (x.id :: seen)
      constructor
      · refine List.nodup_cons.mpr ⟨?_, h1⟩
        exact h2 x.id (List.mem_cons_self _ _)
      · intro s hs
        simp only [List.map_cons, List.mem_cons]
        push_neg
        refine ⟨?_, h2 s (List.mem_cons_of_mem _ hs)⟩
        rintro rfl
        exact hx hs

theorem dedupById_id_nodup (l : List Opportunity) : ((dedupById l).map (·.id)).Nodup :=
  (dedupAux_id_nodup l []).1

theorem mem_of_mem_postprocess {o : Opportunity} {l : List Opportunity}
    (h : o ∈ postprocess l) : o ∈ l :=
  mem_of_mem_dedupAux ((sortBySavingsDesc_perm (dedupById l)).mem_iff.mp h)

theorem postprocess_pairwise (l : List Opportunity) :
    (postprocess l).Pairwise (fun a b => b.estimated_savings ≤ a.estimated_savings) :=
  sortBySavingsDesc_pairwise (dedupById l)

theorem postprocess_id_nodup (l : List Opportunity) :
    ((postprocess l).map (·.id)).Nodup :=
  (((sortBySavingsDesc_perm (dedupById l)).map (·.id)).nodup_iff).mpr (dedupById_id_nodup l)

theorem generate_opportunities_cases (env : Env) :
    (∃ l, runBlock env = .ok l ∧ generate_opportunities env = postprocess l) ∨
      (∃ e, runBlock env = .error e ∧ generate_opportunities env = postprocess [errOpp e]) := by
  unfold generate_opportunities
  cases h : runBlock env with
  | ok l => exact Or.inl ⟨l, rfl, rfl⟩
  | error e => exact Or.inr ⟨e, rfl, rfl⟩

/-! ## Helper lemmas for the regression primitive -/

theorem list_sum_map_getD (l : List ℚ) (f : ℚ → ℚ) :
    (l.map f).sum = ∑ i ∈ Finset.range l.length, f (l.getD i 0) := by
  induction l with
  | nil => simp
  | cons x xs ih =>
    rw [List.map_cons, List.sum_cons, ih, List.length_cons, Finset.sum_range_succ']
    simp [add_comm]

theorem list_sum_getD (l : List ℚ) :
    l.sum = ∑ i ∈ Finset.range l.length, l.getD i 0 := by
  have h := list_sum_map_getD l id
  simpa using h

theorem sum_range_id_cast (n : ℕ) :
    (∑ i ∈ Finset.range n, (i : ℚ)) * 2 = (n : ℚ) * ((n : ℚ) - 1) := by
  induction n with
  | zero => simp
  | succ m ih =>
    rw [Finset.sum_range_succ]
    push_cast
    push_cast at ih
    ring_nf
    ring_nf at ih
    linarith

theorem lrMeanX_eq (n : ℕ) (h : n ≠ 0) : lrMeanX n = ((n : ℚ) - 1) / 2 := by
  have h2 := sum_range_id_cast n
  have hn : (n : ℚ) ≠ 0 := Nat.cast_ne_zero.mpr h
  unfold lrMeanX
  field_simp
  linear_combination h2

theorem lrSSxx_nonneg (n : ℕ) : 0 ≤ lrSSxx n :=
  Finset.sum_nonneg fun _ _ => sq_nonneg _

theorem lrSSyy_nonneg (ys : List ℚ) : 0 ≤ lrSSyy ys := by
  apply List.sum_nonneg
  intro x hx
  obtain ⟨y, _, rfl⟩ := List.mem_map.mp hx
  exact sq_nonneg _

theorem lrSSxx_pos (n : ℕ) (h : 3 ≤ n) : 0 < lrSSxx n := by
  have hm : lrMeanX n = ((n : ℚ) - 1) / 2 := lrMeanX_eq n (by omega)
  have h3 : (3 : ℚ) ≤ (n : ℚ) := by exact_mod_cast h
  have h1 : (1 : ℚ) ≤ lrMeanX n := by rw [hm]; linarith
  have h0 : (0 : ℕ) ∈ Finset.range n := Finset.mem_range.mpr (by omega)
  have hnn : ∀ i ∈ Finset.range n, (0 : ℚ) ≤ (fun j : ℕ => ((j : ℚ) - lrMeanX n) ^ 2) i :=
    fun i _ => sq_nonneg _
  have hterm2 : lrMeanX n ^ 2 ≤ lrSSxx n := by
    unfold lrSSxx
    calc lrMeanX n ^ 2 = (((0 : ℕ) : ℚ) - lrMeanX n) ^ 2 := by push_cast; ring
      _ ≤ ∑ j ∈ Finset.range n, ((j : ℚ) - lrMeanX n) ^ 2 :=
        Finset.single_le_sum hnn h0
  linarith [hterm2, h1, sq_nonneg (lrMeanX n - 1)]

theorem lrSSxy_sq_le (ys : List ℚ) :
    lrSSxy ys ^ 2 ≤ lrSSxx ys.length * lrSSyy ys := by
  have hyy : lrSSyy ys =
      ∑ i ∈ Finset.range ys.length, (ys.getD i 0 - lrMeanY ys) ^ 2 :=
    list_sum_map_getD ys _
  unfold lrSSxy lrSSxx
  rw [hyy]
  exact Finset.sum_mul_sq_le_sq_mul_sq _ _ _

theorem lr_r_sq_bounds (ys : List ℚ) :
    0 ≤ (_linear_regression ys).2 ∧ (_linear_regression ys).2 ≤ 1 := by
  unfold _linear_regression
  split
  · simp
  split
  · simp
  split
  · simp
  rename_i hlen hxx hyy
  have hxxpos : 0 < lrSSxx ys.length := lrSSxx_pos ys.length (by omega)
  have hyypos : 0 < lrSSyy ys := lt_of_le_of_ne (lrSSyy_nonneg ys) (Ne.symm hyy)
  have hden : 0 < lrSSxx ys.length * lrSSyy ys := mul_pos hxxpos hyypos
  constructor
  · exact div_nonneg (sq_nonneg _) hden.le
  · exact (div_le_one hden).mpr (lrSSxy_sq_le ys)

theorem sum_sub_mul_sub (n : ℕ) (g : ℕ → ℚ) (c d : ℚ) :
    (∑ i ∈ Finset.range n, ((i : ℚ) - c) * (g i - d)) =
      (∑ i ∈ Finset.range n, (i : ℚ) * g i) - c * (∑ i ∈ Finset.range n, g i)
        - d * (∑ i ∈ Finset.range n, (i : ℚ)) + n * (c * d) := by
  induction n with
  | zero => simp
  | succ m ih =>
    rw [Finset.sum_range_succ, Finset.sum_range_succ, Finset.sum_range_succ,
      Finset.sum_range_succ]
    push_cast
    push_cast at ih
    linear_combination ih

theorem sum_sub_sq (n : ℕ) (c : ℚ) :
    (∑ i ∈ Finset.range n, ((i : ℚ) - c) ^ 2) =
      (∑ i ∈ Finset.range n, (i : ℚ) ^ 2) - 2 * c * (∑ i ∈ Finset.range n, (i : ℚ))
        + n * c ^ 2 := by
  induction n with
  | zero => simp
  | succ m ih =>
    rw [Finset.sum_range_succ, Finset.sum_range_succ, Finset.sum_range_succ]
    push_cast
    push_cast at ih
    linear_combination ih

theorem lrSSxy_scaled (ys : List ℚ) (h : ys.length ≠ 0) :
    (ys.length : ℚ) * lrSSxy ys =
      (ys.length : ℚ) * (∑ i ∈ Finset.range ys.length, (i : ℚ) * ys.getD i 0) -
        (∑ i ∈ Finset.range ys.length, (i : ℚ)) * ys.sum := by
  have hn : (ys.length : ℚ) ≠ 0 := Nat.cast_ne_zero.mpr h
  have hexp := sum_sub_mul_sub ys.length (fun i => ys.getD i 0)
    (lrMeanX ys.length) (lrMeanY ys)
  have hsum : (∑ i ∈ Finset.range ys.length, ys.getD i 0) = ys.sum :=
    (list_sum_getD ys).symm
  unfold lrSSxy
  rw [hexp, hsum]
  unfold lrMeanX lrMeanY
  field_simp
  ring

theorem lrSSxx_scaled (n : ℕ) (h : n ≠ 0) :
    (n : ℚ) * lrSSxx n =
      (n : ℚ) * (∑ i ∈ Finset.range n, (i : ℚ) ^ 2) -
        (∑ i ∈ Finset.range n, (i : ℚ)) ^ 2 := by
  have hn : (n : ℚ) ≠ 0 := Nat.cast_ne_zero.mpr h
  have hexp := sum_sub_sq n (lrMeanX n)
  unfold lrSSxx
  rw [hexp]
  unfold lrMeanX
  field_simp
  ring

/-- The textbook ordinary-least-squares slope
`(n·Σxy − Σx·Σy) / (n·Σx² − (Σx)²)` over `x = 0..n-1`, written from the
spec's description and used to check `_linear_regression`. -/
def olsSlope (ys : List ℚ) : ℚ :=
  ((ys.length : ℚ) * (∑ i ∈ Finset.range ys.length, (i : ℚ) * ys.getD i 0) -
      (∑ i ∈ Finset.range ys.length, (i : ℚ)) * ys.sum) /
    ((ys.length : ℚ) * (∑ i ∈ Finset.range ys.length, (i : ℚ) ^ 2) -
      (∑ i ∈ Finset.range ys.length, (i : ℚ)) ^ 2)

theorem lr_slope_eq_ols (ys : List ℚ) (h : 3 ≤ ys.length) :
    (_linear_regression ys).1 = olsSlope ys := by
  have hlen : ¬ ys.length < 3 := by omega
  have hne : ys.length ≠ 0 := by omega
  have hn : (ys.length : ℚ) ≠ 0 := Nat.cast_ne_zero.mpr hne
  have hxxpos := lrSSxx_pos ys.length h
  have hxxne : lrSSxx ys.length ≠ 0 := ne_of_gt hxxpos
  have hA := lrSSxy_scaled ys hne
  have hB := lrSSxx_scaled ys.length hne
  have hden : (ys.length : ℚ) * (∑ i ∈ Finset.range ys.length, (i : ℚ) ^ 2) -
      (∑ i ∈ Finset.range ys.length, (i : ℚ)) ^ 2 ≠ 0 := by
    rw [← hB]
    exact mul_ne_zero hn hxxne
  unfold _linear_regression
  rw [if_neg hlen, if_neg hxxne]
  show lrSSxy ys / lrSSxx ys.length = olsSlope ys
  unfold olsSlope
  rw [div_eq_div_iff hxxne hden]
  linear_combination lrSSxx ys.length * hA - lrSSxy ys * hB

/-- C8: `_linear_regression` returns `(0, 0)` for every series of fewer than
3 elements (including `[]`, `[5]` and `[5, 5]`); for every series of length
`n ≥ 3` its first component is the ordinary-least-squares slope over
`x = 0..n-1` (the textbook formula `olsSlope`), its second component is
defined as `0` whenever the y-variance `ss_yy` is zero instead of raising a
division error; and `_linear_regression [1,2,3,4,5] = (1.0, 1.0)`. -/
theorem C8_linear_regression_contract :
    (∀ ys : List ℚ, ys.length < 3 → _linear_regression ys = (0, 0)) ∧
    _linear_regression [] = (0, 0) ∧
    _linear_regression [5] = (0, 0) ∧
    _linear_regression [5, 5] = (0, 0) ∧
    (∀ ys : List ℚ, 3 ≤ ys.length → (_linear_regression ys).1 = olsSlope ys) ∧
    (∀ ys : List ℚ, lrSSyy ys = 0 → (_linear_regression ys).2 = 0) ∧
    _linear_regression [1, 2, 3, 4, 5] = (1, 1) := by
  refine ⟨?_, by rfl, by rfl, by rfl, lr_slope_eq_ols, ?_, ?_⟩
  · intro ys h
    unfold _linear_regression
    rw [if_pos h]
  · intro ys h
    unfold _linear_regression
    split
    · rfl
    split
    · rfl
    simp [h]
  · norm_num [_linear_regression, lrSSxy, lrSSxx, lrSSyy, lrMeanX, lrMeanY,
      Finset.sum_range_succ, Prod.ext_iff]

/-- Witness for `C8_linear_regression_contract` at concrete inputs. -/
theorem C8_linear_regression_contract_witness :
    _linear_regression [2, 2] = (0, 0) ∧
    (_linear_regression [0, 1, 2]).1 = olsSlope [0, 1, 2] ∧
    (_linear_regression [4, 4, 4]).2 = 0 :=
  ⟨C8_linear_regression_contract.1 [2, 2] (by norm_num),
   C8_linear_regression_contract.2.2.2.2.1 [0, 1, 2] (by norm_num),
   C8_linear_regression_contract.2.2.2.2.2.1 [4, 4, 4]
     (by norm_num [lrSSyy, lrMeanY])⟩

/-! ## Helper lemmas for the HHI primitive -/

theorem list_sum_sq_le_sq (l : List ℚ) (h : ∀ x ∈ l, 0 ≤ x) :
    (l.map (fun x => x ^ 2)).sum ≤ l.sum ^ 2 := by
  induction l with
  | nil => simp
  | cons x xs ih =>
    have hx : 0 ≤ x := h x (List.mem_cons_self _ _)
    have hxs : ∀ y ∈ xs, 0 ≤ y := fun y hy => h y (List.mem_cons_of_mem _ hy)
    have hsum : 0 ≤ xs.sum := List.sum_nonneg hxs
    have hih := ih hxs
    simp only [List.map_cons, List.sum_cons]
    nlinarith [mul_nonneg hx hsum]

/-- C9: for every sequence of non-negative values `_hhi` lies in
`[0, 10000]`; an all-zero input yields `0` (the zero total is replaced by `1`
rather than raising a division error); `_hhi [100,0,0] = 10000` and
`_hhi [25,25,25,25] = 2500`. -/
theorem C9_hhi_contract :
    (∀ shares : List ℚ, (∀ s ∈ shares, 0 ≤ s) →
      0 ≤ _hhi shares ∧ _hhi shares ≤ 10000) ∧
    (∀ n : ℕ, _hhi (List.replicate n 0) = 0) ∧
    _hhi [100, 0, 0] = 10000 ∧
    _hhi [25, 25, 25, 25] = 2500 := by
  refine ⟨?_, ?_, by norm_num [_hhi], by norm_num [_hhi]⟩
  · intro shares h
    have hsum0 : 0 ≤ shares.sum := List.sum_nonneg h
    unfold _hhi
    constructor
    · apply List.sum_nonneg
      intro x hx
      obtain ⟨s, _, rfl⟩ := List.mem_map.mp hx
      exact sq_nonneg _
    · by_cases hz : shares.sum = 0
      all_goals
        simp only [hz, if_true, if_false, reduceIte]
      · -- total = 1
        have hfun : (fun s : ℚ => (s / 1 * 100) ^ 2) = fun s : ℚ => (s * 100) ^ 2 := by
          funext s
          norm_num
        rw [hfun]
        have hmm : (shares.map (fun s : ℚ => (s * 100) ^ 2)) =
            ((shares.map (fun s : ℚ => s * 100)).map (fun x => x ^ 2)) := by
          rw [List.map_map]
          rfl
        rw [hmm]
        have hl : ∀ x ∈ shares.map (fun s : ℚ => s * 100), 0 ≤ x := by
          intro x hx
          obtain ⟨s, hs, rfl⟩ := List.mem_map.mp hx
          have := h s hs
          positivity
        have hb := list_sum_sq_le_sq _ hl
        have hs100 : (shares.map (fun s : ℚ => s * 100)).sum = shares.sum * 100 := by
          simpa using List.sum_map_mul_right shares id 100
        rw [hs100, hz] at hb
        norm_num at hb
        rw [List.map_map]
        linarith
      · -- total = shares.sum > 0
        have hpos : 0 < shares.sum := lt_of_le_of_ne hsum0 (Ne.symm hz)
        have hmm : (shares.map (fun s : ℚ => (s / shares.sum * 100) ^ 2)) =
            ((shares.map (fun s : ℚ => s / shares.sum * 100)).map (fun x => x ^ 2)) := by
          rw [List.map_map]
          rfl
        rw [hmm]
        have hl : ∀ x ∈ shares.map (fun s : ℚ => s / shares.sum * 100), 0 ≤ x := by
          intro x hx
          obtain ⟨s, hs, rfl⟩ := List.mem_map.mp hx
          have := h s hs
          positivity
        have hb := list_sum_sq_le_sq _ hl
        have hfun : (fun s : ℚ => s / shares.sum * 100) =
            fun s : ℚ => s * (100 / shares.sum) := by
          funext s
          ring
        have hs100 : (shares.map (fun s : ℚ => s / shares.sum * 100)).sum =
            shares.sum * (100 / shares.sum) := by
          rw [hfun]
          simpa using List.sum_map_mul_right shares id (100 / shares.sum)
        rw [hs100] at hb
        have : shares.sum * (100 / shares.sum) = 100 := by
          field_simp
        rw [this] at hb
        linarith
  · intro n
    unfold _hhi
    have hz : (List.replicate n (0 : ℚ)).sum = 0 := by
      simp [List.sum_replicate]
    simp only [hz, reduceIte, List.map_replicate]
    norm_num [List.sum_replicate]

/-- Witness for `C9_hhi_contract` at a concrete input. -/
theorem C9_hhi_contract_witness :
    0 ≤ _hhi [90, 5, 5] ∧ _hhi [90, 5, 5] ≤ 10000 :=
  C9_hhi_contract.1 [90, 5, 5] (by norm_num)

/-- C2: `generate_opportunities` never propagates an exception — in this
embedding it is a total function into `List Opportunity`, because the single
`try` block converts the first raising fetch into the synthetic opportunity —
and on a total provider failure (every fetch raises) it returns exactly the
single `err-001` opportunity: category `"system"`, priority `"low"`,
`estimated_savings = 0`, with the exception text embedded in the
description. -/
theorem C2_total_failure_contract (e1 e2 e3 e4 e5 e6 e7 : String) :
    generate_opportunities
        ⟨.error e1, .error e2, .error e3, .error e4, .error e5, .error e6, .error e7⟩ =
      [errOpp e1] ∧
    (errOpp e1).category = "system" ∧
    (errOpp e1).priority = "low" ∧
    (errOpp e1).estimated_savings = 0 ∧
    (errOpp e1).description = "Some analyses could not complete: " ++ e1 :=
  ⟨rfl, rfl, rfl, rfl, rfl⟩

/-- Environment for the C1 counterexample: the region query raises while the
service query succeeds with data that makes the (region-independent)
concentration analyzer emit. -/
def svcC1 : List ServiceCost := [⟨"Amazon EC2", 90⟩, ⟨"B", 5⟩, ⟨"C", 5⟩]

def envC1 : Env :=
  ⟨.ok [], .ok svcC1, .error "boom", .ok [], .ok [], .ok ⟨[], [], []⟩, .ok []⟩

/-- C1 counterexample: in `envC1` exactly one provider query (regions)
raises and every other query succeeds, the concentration analyzer — which
does not depend on the region query — would emit one opportunity, yet the
run returns only the synthetic `err-001` opportunity: the aggregation WAS
aborted and the non-dependent analyzer's opportunity is missing. -/
theorem C1_isolation_counterexample :
    envC1.regions = .error "boom" ∧
    envC1.services = .ok svcC1 ∧
    (_analyse_service_concentration svcC1).length = 1 ∧
    generate_opportunities envC1 = [errOpp "boom"] := by
  refine ⟨rfl, rfl, ?_, rfl⟩
  norm_num [_analyse_service_concentration, _hhi, svcC1]
  simp

/-- C1 amended: the six data fetches and all ten analyzer calls share one
`try` block, so a failure of any one of the six data queries aborts the whole
aggregation — no analyzer runs (not even analyzers independent of the failed
query) and the output is exactly the single synthetic `err-001` opportunity
carrying that exception's text.  Only the Savings-Plans-coverage query is
isolated (it has its own `try`/`except` inside its analyzer): its failure is
equivalent to an empty coverage response, all other analyzers contributing
normally. -/
theorem C1_isolation_amended :
    (∀ (e : String) s r u m d c,
      generate_opportunities ⟨.error e, s, r, u, m, d, c⟩ = [errOpp e]) ∧
    (∀ (dl : List CostPoint) (e : String) r u m d c,
      generate_opportunities ⟨.ok dl, .error e, r, u, m, d, c⟩ = [errOpp e]) ∧
    (∀ (dl : List CostPoint) (sv : List ServiceCost) (e : String) u m d c,
      generate_opportunities ⟨.ok dl, .ok sv, .error e, u, m, d, c⟩ = [errOpp e]) ∧
    (∀ (dl : List CostPoint) (sv : List ServiceCost) (rg : List RegionCost)
        (e : String) m d c,
      generate_opportunities ⟨.ok dl, .ok sv, .ok rg, .error e, m, d, c⟩ = [errOpp e]) ∧
    (∀ (dl : List CostPoint) (sv : List ServiceCost) (rg : List RegionCost)
        (ut : List UsageTypeCost) (e : String) d c,
      generate_opportunities ⟨.ok dl, .ok sv, .ok rg, .ok ut, .error e, d, c⟩ =
        [errOpp e]) ∧
    (∀ (dl : List CostPoint) (sv : List ServiceCost) (rg : List RegionCost)
        (ut : List UsageTypeCost) (mo : List MonthCost) (e : String) c,
      generate_opportunities ⟨.ok dl, .ok sv, .ok rg, .ok ut, .ok mo, .error e, c⟩ =
        [errOpp e]) ∧
    (∀ (dl : List CostPoint) (sv : List ServiceCost) (rg : List RegionCost)
        (ut : List UsageTypeCost) (mo : List MonthCost) (dsv : DailySvc) (e : String),
      generate_opportunities ⟨.ok dl, .ok sv, .ok rg, .ok ut, .ok mo, .ok dsv, .error e⟩ =
        generate_opportunities ⟨.ok dl, .ok sv, .ok rg, .ok ut, .ok mo, .ok dsv, .ok []⟩) :=
  ⟨fun _ _ _ _ _ _ _ => rfl, fun _ _ _ _ _ _ _ => rfl, fun _ _ _ _ _ _ _ => rfl,
   fun _ _ _ _ _ _ _ => rfl, fun _ _ _ _ _ _ _ => rfl, fun _ _ _ _ _ _ _ => rfl,
   fun _ _ _ _ _ _ _ => rfl⟩

/-- C3: on any successful run, the output of `generate_opportunities` is the
concatenation of the ten analyzers' outputs in execution order,
de-duplicated by `id` keeping the first occurrence, then stably sorted by
`estimated_savings` descending.  Consequently for all adjacent (indeed all
ordered) pairs `(a, b)` of any output `a.estimated_savings ≥
b.estimated_savings`, no two output elements share an `id`, the sort is a
permutation, and elements of equal `estimated_savings` keep their previous
relative order (stability, stated via `filter`). -/
theorem C3_dedup_sort_contract :
    (∀ (dl : List CostPoint) (sv : List ServiceCost) (rg : List RegionCost)
        (ut : List UsageTypeCost) (mo : List MonthCost) (dsv : DailySvc)
        (cov : Except String (List CoverageRec)),
      generate_opportunities ⟨.ok dl, .ok sv, .ok rg, .ok ut, .ok mo, .ok dsv, cov⟩ =
        sortBySavingsDesc (dedupById
          (_analyse_cost_trend dl ++ _analyse_service_concentration sv ++
            _analyse_service_spikes dsv ++ _analyse_region_waste rg ++
            _analyse_data_transfer ut ++ _analyse_idle_services sv dsv ++
            _analyse_monthly_growth mo ++ _analyse_scheduling_opportunities dl ++
            _analyse_storage_optimization ut ++ _analyse_savings_plan_coverage cov))) ∧
    (∀ env : Env, (generate_opportunities env).Pairwise
      (fun a b => b.estimated_savings ≤ a.estimated_savings)) ∧
    (∀ env : Env, ((generate_opportunities env).map (·.id)).Nodup) ∧
    (∀ l : List Opportunity, List.Perm (sortBySavingsDesc l) l) ∧
    (∀ (l : List Opportunity) (q : ℚ),
      (sortBySavingsDesc l).filter (fun o => decide (o.estimated_savings = q)) =
        l.filter (fun o => decide (o.estimated_savings = q))) := by
  refine ⟨?_, ?_, ?_, sortBySavingsDesc_perm, sortBySavingsDesc_filter⟩
  · intro dl sv rg ut mo dsv cov
    cases cov with
    | ok c => rfl
    | error c => rfl
  · intro env
    rcases generate_opportunities_cases env with ⟨l, _, h⟩ | ⟨e, _, h⟩ <;>
      rw [h] <;> exact postprocess_pairwise _
  · intro env
    rcases generate_opportunities_cases env with ⟨l, _, h⟩ | ⟨e, _, h⟩ <;>
      rw [h] <;> exact postprocess_id_nodup _

/-- Per-service-list summary required by the amended C5, written from the
amended claim's words: emit exactly one summary when the list has at least 2
entries and the HHI over the positive cost shares exceeds 2500; priority
`high` exactly when the first service's share of the positive-cost total
exceeds 60%, estimated savings `0.15 ×` top cost rounded to 2 decimals,
confidence 80. -/
def specConcSummaries (services : List ServiceCost) : List (String × ℚ × ℚ) :=
  let costs := (services.filter (fun s => decide (0 < s.cost))).map (·.cost)
  let total := if costs.sum = 0 then 1 else costs.sum
  if services.length < 2 ∨ ¬ _hhi costs > 2500 then []
  else
    [(if (services.headD default).cost / total * 100 > 60 then "high" else "medium",
      round2 ((services.headD default).cost * 0.15), 80)]

def svcC5 : List ServiceCost := [⟨"A", 90⟩, ⟨"Z", 0⟩]

/-- C5 counterexample: in `[{A,90},{Z,0}]` only ONE service has positive
cost, so by the claim ("emits only when there are at least 2 services with
positive cost") the analyzer must stay silent; the code tests
`len(services) >= 2` on the full list and does emit. -/
theorem C5_concentration_counterexample :
    (svcC5.filter (fun s => decide (0 < s.cost))).length = 1 ∧
    _analyse_service_concentration svcC5 ≠ [] := by
  constructor
  · norm_num [svcC5]
  · norm_num [_analyse_service_concentration, _hhi, svcC5]
    simp

/-- C5 amended: the Service Concentration analyzer emits exactly when the
services list has at least 2 entries (regardless of their cost sign) and the
HHI over the positive cost shares exceeds 2500; it then emits exactly one
opportunity for the first service with priority `high` exactly when that
service's share of the positive-cost total exceeds 60% (else `medium`),
estimated_savings `round(0.15 × top cost, 2)` and confidence 80; services
`[{A,90},{B,5},{C,5}]` yield exactly one opportunity, for `A`, priority
`high`, estimated_savings 13.5. -/
theorem C5_concentration_amended :
    (∀ services : List ServiceCost,
      (_analyse_service_concentration services).map
          (fun o => (o.priority, o.estimated_savings, o.confidence)) =
        specConcSummaries services) ∧
    (_analyse_service_concentration [⟨"A", 90⟩, ⟨"B", 5⟩, ⟨"C", 5⟩]).map
        (fun o => (o.id, o.title, o.priority, o.estimated_savings, o.confidence)) =
      [("conc-001", "High Spend Concentration: A", "high", 27/2, 80)] := by
  constructor
  · intro services
    unfold _analyse_service_concentration specConcSummaries
    by_cases hnil : services = []
    · subst hnil
      norm_num
    · rw [if_neg hnil]
      by_cases hg : _hhi ((services.filter (fun s => decide (0 < s.cost))).map (·.cost)) >
          2500 ∧ 2 ≤ services.length
      · have hg2 : ¬ (services.length < 2 ∨
            ¬ _hhi ((services.filter (fun s => decide (0 < s.cost))).map (·.cost)) > 2500) := by
          push_neg
          exact ⟨hg.2, hg.1⟩
        rw [if_pos hg, if_neg hg2]
        simp only [List.map_cons, List.map_nil, concOpp]
      · have hg2 : services.length < 2 ∨
            ¬ _hhi ((services.filter (fun s => decide (0 < s.cost))).map (·.cost)) > 2500 := by
          by_contra hc
          push_neg at hc
          exact hg ⟨hc.2, by omega⟩
        rw [if_neg hg, if_pos hg2]
        rfl
  · have h1 : _analyse_service_concentration [⟨"A", 90⟩, ⟨"B", 5⟩, ⟨"C", 5⟩] =
        [concOpp ⟨"A", 90⟩ 90 8150] := by
      norm_num [_analyse_service_concentration, _hhi]
      simp
    rw [h1]
    simp only [List.map_cons, List.map_nil, concOpp]
    norm_num [round2, roundHE, Prod.ext_iff]
    rfl

/-- Summaries `(priority, estimated_savings, confidence)` of the
week-over-week anomaly opportunities required by the amended C7, written
from the amended claim's words: for a series of ≥ 14 points with positive
prior-7-day sum, emit exactly when the week-over-week percentage change
exceeds 15, priority `critical` iff it exceeds 40, estimated savings
`round(0.5 × (recent − prior), 2)`, confidence 85. -/
def specWowSummaries (daily : List CostPoint) : List (String × ℚ × ℚ) :=
  if daily.length < 14 then []
  else
    let costs := daily.map (·.cost)
    let recent := (costs.drop (costs.length - 7)).sum
    let prior := ((costs.drop (costs.length - 14)).take 7).sum
    if 0 < prior then
      if (recent - prior) / prior * 100 > 15 then
        [(if (recent - prior) / prior * 100 > 40 then "critical" else "high",
          round2 ((recent - prior) * 0.5), 85)]
      else []
    else []

theorem filter_eq_nil_of_ne_id (l : List Opportunity) (s : String)
    (h : ∀ o ∈ l, o.id ≠ s) : l.filter (fun o => o.id == s) = [] := by
  induction l with
  | nil => rfl
  | cons x xs ih =>
    have hx : (x.id == s) = false :=
      beq_eq_false_iff_ne.mpr (h x (List.mem_cons_self _ _))
    rw [List.filter_cons]
    rw [hx]
    simp only [Bool.false_eq_true, if_false]
    exact ih fun o ho => h o (List.mem_cons_of_mem _ ho)

/-- The `trend-002` slice of `_analyse_cost_trend` is exactly the spec-side
week-over-week rule. -/
theorem wow_filter_eq (daily : List CostPoint) :
    ((_analyse_cost_trend daily).filter (fun o => o.id == "trend-002")).map
        (fun o => (o.priority, o.estimated_savings, o.confidence)) =
      specWowSummaries daily := by
  unfold _analyse_cost_trend specWowSummaries
  by_cases hlen : daily.length < 14
  · rw [if_pos hlen, if_pos hlen]
    rfl
  rw [if_neg hlen, if_neg hlen]
  rw [List.filter_append]
  have e1 : (if (_linear_regression (daily.map (·.cost))).1 > 0 ∧
        (_linear_regression (daily.map (·.cost))).2 > 0.3 ∧
        (daily.map (·.cost)).sum / ((daily.map (·.cost)).length : ℚ) > 0 then
      if (_linear_regression (daily.map (·.cost))).1 * 30 /
            ((daily.map (·.cost)).sum / ((daily.map (·.cost)).length : ℚ)) * 100 > 5 then
        [trendOpp (_linear_regression (daily.map (·.cost))).1
          (_linear_regression (daily.map (·.cost))).2
          ((_linear_regression (daily.map (·.cost))).1 * 30 /
            ((daily.map (·.cost)).sum / ((daily.map (·.cost)).length : ℚ)) * 100)
          ((_linear_regression (daily.map (·.cost))).1 * 30)]
      else []
    else []).filter (fun o => o.id == "trend-002") = [] := by
    apply filter_eq_nil_of_ne_id
    intro o ho
    split at ho
    · split at ho
      · rcases List.mem_singleton.mp ho with rfl
        intro hcontra
        simp [trendOpp] at hcontra
      · exact absurd ho (List.not_mem_nil o)
    · exact absurd ho (List.not_mem_nil o)
  rw [e1, List.nil_append]
  have hc : 14 ≤ (daily.map (·.cost)).length := by
    rw [List.length_map]
    omega
  rw [if_pos hc]
  by_cases hp : 0 < (((daily.map (·.cost)).drop ((daily.map (·.cost)).length - 14)).take 7).sum
  · rw [if_pos hp, if_pos hp]
    by_cases hw : (((daily.map (·.cost)).drop ((daily.map (·.cost)).length - 7)).sum -
          (((daily.map (·.cost)).drop ((daily.map (·.cost)).length - 14)).take 7).sum) /
          (((daily.map (·.cost)).drop ((daily.map (·.cost)).length - 14)).take 7).sum * 100 > 15
    · rw [if_pos hw, if_pos hw]
      rfl
    · rw [if_neg hw, if_neg hw]
      rfl
  · rw [if_neg hp, if_neg hp]
    rfl

def cpC7 (c : ℚ) : CostPoint := ⟨⟨2024, 1, 7⟩, c⟩

def dailyC7 : List CostPoint :=
  [cpC7 10, cpC7 10, cpC7 10, cpC7 10, cpC7 10, cpC7 10, cpC7 10, cpC7 10, cpC7 10,
   cpC7 10, cpC7 10, cpC7 10, cpC7 10, cpC7 10, cpC7 30]

def dailyC7x : List CostPoint :=
  [cpC7 1, cpC7 1, cpC7 1, cpC7 1, cpC7 1, cpC7 1, cpC7 1, cpC7 2, cpC7 2, cpC7 2,
   cpC7 2, cpC7 2, cpC7 2, cpC7 (1003/500)]

/-- C7 counterexample: for the 14-point series
`[1,1,1,1,1,1,1, 2,2,2,2,2,2, 2.006]` the recent week sums to `14.006`, the
prior week to `7`, so the claimed estimated savings `0.5 × (recent − prior)`
is `3.503`, but the code stores `round(…, 2) = 3.5`: the emitted opportunity
has `estimated_savings = 3.5 ≠ 3.503`. -/
theorem C7_wow_counterexample :
    ((_analyse_cost_trend dailyC7x).filter (fun o => o.id == "trend-002")).map
        (fun o => (o.priority, o.estimated_savings, o.confidence)) =
      [("critical", 7/2, 85)] ∧
    0.5 * (((dailyC7x.map (·.cost)).drop ((dailyC7x.map (·.cost)).length - 7)).sum -
        (((dailyC7x.map (·.cost)).drop ((dailyC7x.map (·.cost)).length - 14)).take 7).sum) =
      3503/1000 ∧
    (7/2 : ℚ) ≠ 3503/1000 := by
  have hrec : ((dailyC7x.map (·.cost)).drop ((dailyC7x.map (·.cost)).length - 7)) =
      [2, 2, 2, 2, 2, 2, 1003/500] := rfl
  have hpri : (((dailyC7x.map (·.cost)).drop ((dailyC7x.map (·.cost)).length - 14)).take 7) =
      [1, 1, 1, 1, 1, 1, 1] := rfl
  refine ⟨?_, ?_, by norm_num⟩
  · rw [wow_filter_eq]
    simp only [specWowSummaries, hrec, hpri]
    rw [if_neg (by decide : ¬ dailyC7x.length < 14)]
    norm_num [round2, roundHE]
  · rw [hrec, hpri]
    norm_num

/-- C7 amended: the week-over-week branch of the Cost Trend analyzer emits
exactly when the series has ≥ 14 points, the prior-7-day sum is positive and
the week-over-week percentage change exceeds 15; priority `critical` iff the
change exceeds 40 (else `high`), estimated_savings `round(0.5 × (recent −
prior), 2)` — i.e. the spec's formula rounded to 2 decimals — and confidence
85.  For `[10 × 14, 30]` the recent sum is 90, the prior sum 70, and one
`high` anomaly opportunity with savings 10 and confidence 85 is emitted. -/
theorem C7_wow_amended :
    (∀ daily : List CostPoint,
      ((_analyse_cost_trend daily).filter (fun o => o.id == "trend-002")).map
          (fun o => (o.priority, o.estimated_savings, o.confidence)) =
        specWowSummaries daily) ∧
    ((dailyC7.map (·.cost)).drop ((dailyC7.map (·.cost)).length - 7)).sum = 90 ∧
    (((dailyC7.map (·.cost)).drop ((dailyC7.map (·.cost)).length - 14)).take 7).sum = 70 ∧
    ((_analyse_cost_trend dailyC7).filter (fun o => o.id == "trend-002")).map
        (fun o => (o.priority, o.estimated_savings, o.confidence)) =
      [("high", 10, 85)] := by
  have hrec : ((dailyC7.map (·.cost)).drop ((dailyC7.map (·.cost)).length - 7)) =
      [10, 10, 10, 10, 10, 10, 30] := rfl
  have hpri : (((dailyC7.map (·.cost)).drop ((dailyC7.map (·.cost)).length - 14)).take 7) =
      [10, 10, 10, 10, 10, 10, 10] := rfl
  refine ⟨wow_filter_eq, ?_, ?_, ?_⟩
  · rw [hrec]
    norm_num
  · rw [hpri]
    norm_num
  · rw [wow_filter_eq]
    simp only [specWowSummaries, hrec, hpri]
    rw [if_neg (by decide : ¬ dailyC7.length < 14)]
    norm_num [round2, roundHE]

/-- The emission condition of the amended C6, written from the amended
claim's words: cost strictly between 0.5 and 50, at least 7 daily points,
root-mean-square deviation of the daily series from `cost / len(daily)`
below `0.5 × (cost/30)`, and `cost/30 > 0.01`. -/
noncomputable def specIdleCond (daily_svc : DailySvc) (s : ServiceCost) : Prop :=
  0.5 < s.cost ∧ s.cost < 50 ∧ 7 ≤ (lookupD daily_svc.data s.service).length ∧
    idleStd (lookupD daily_svc.data s.service) s.cost < ((s.cost / 30 : ℚ) : ℝ) * 0.5 ∧
    s.cost / 30 > 0.01

open Classical in
/-- The services satisfying `specIdleCond`, in list order. -/
noncomputable def specIdleFilter (daily_svc : DailySvc) : List ServiceCost → List ServiceCost
  | [] => []
  | s :: rest =>
    if specIdleCond daily_svc s then s :: specIdleFilter daily_svc rest
    else specIdleFilter daily_svc rest

open Classical in
theorem idlePerService_eq (m : DailySvc) (s : ServiceCost) :
    idlePerService m s =
      if specIdleCond m s then [idleOpp (shorten s.service) s.cost (s.cost / 30)] else [] := by
  unfold idlePerService specIdleCond
  by_cases h1 : (0.5 : ℚ) < s.cost ∧ s.cost < 50 ∧ 7 ≤ (lookupD m.data s.service).length
  · rw [if_pos h1]
    have hne : lookupD m.data s.service ≠ [] := by
      intro h
      have h7 := h1.2.2
      rw [h] at h7
      simp at h7
    rw [if_neg hne]
    by_cases h2 : idleStd (lookupD m.data s.service) s.cost < ((s.cost / 30 : ℚ) : ℝ) * 0.5 ∧
        s.cost / 30 > 0.01
    · rw [if_pos h2, if_pos ⟨h1.1, h1.2.1, h1.2.2, h2.1, h2.2⟩]
    · rw [if_neg h2, if_neg (fun hc => h2 ⟨hc.2.2.2.1, hc.2.2.2.2⟩)]
  · rw [if_neg h1, if_neg (fun hc => h1 ⟨hc.1, hc.2.1, hc.2.2.1⟩)]

theorem idle_flatMap_eq (m : DailySvc) (services : List ServiceCost) :
    services.flatMap (idlePerService m) =
      (specIdleFilter m services).map
        (fun s => idleOpp (shorten s.service) s.cost (s.cost / 30)) := by
  induction services with
  | nil => rfl
  | cons s rest ih =>
    rw [List.flatMap_cons, idlePerService_eq, specIdleFilter]
    by_cases hc : specIdleCond m s
    · simp [hc, ih]
    · simp [hc, ih]

/-- Population standard deviation of a series — the quantity named by the C6
claim ("population standard deviation of the daily series"): deviations are
taken from the mean of the series. -/
noncomputable def popStd (daily : List ℚ) : ℝ :=
  Real.sqrt ((daily.map
    (fun d => ((d : ℝ) - ((daily.sum / daily.length : ℚ) : ℝ)) ^ 2)).sum / daily.length)

def svcC6 : List ServiceCost := [⟨"Amazon EC2", 30⟩]

def dsvC6 : DailySvc := ⟨[], ["Amazon EC2"], [("Amazon EC2", [0, 0, 0, 0, 0, 0, 0])]⟩

theorem idleStd_C6 : idleStd (lookupD dsvC6.data "Amazon EC2") 30 = 30 / 7 := by
  have hlook : lookupD dsvC6.data "Amazon EC2" = [0, 0, 0, 0, 0, 0, 0] := rfl
  rw [hlook]
  unfold idleStd
  have harg : ((([0, 0, 0, 0, 0, 0, 0] : List ℚ).map
      (fun d => ((d : ℝ) - ((30 : ℚ) : ℝ) / (max ([0, 0, 0, 0, 0, 0, 0] : List ℚ).length 1 : ℕ)) ^ 2)).sum /
      (max ([0, 0, 0, 0, 0, 0, 0] : List ℚ).length 1 : ℕ)) = ((30 : ℝ) / 7) ^ 2 := by
    norm_num
  rw [harg]
  exact Real.sqrt_sq (by norm_num)

/-- C6 counterexample: for a service of 30-day cost 30 whose daily series is
`[0,0,0,0,0,0,0]`, every condition of the claim holds — `0.5 < 30 < 50`,
7 daily points, the population standard deviation of the series is `0`,
which is below `0.5 × (30/30)`, and `30/30 > 0.01` — yet the analyzer emits
nothing: the code's `std` measures deviations from `cost/len(daily) = 30/7`,
giving `30/7`, which is not below `0.5 × (30/30)`. -/
theorem C6_idle_counterexample :
    ((0.5 : ℚ) < 30 ∧ (30 : ℚ) < 50) ∧
    (lookupD dsvC6.data "Amazon EC2").length = 7 ∧
    popStd (lookupD dsvC6.data "Amazon EC2") < (((30 : ℚ) / 30 : ℚ) : ℝ) * 0.5 ∧
    (30 : ℚ) / 30 > 0.01 ∧
    _analyse_idle_services svcC6 dsvC6 = [] := by
  have hlook : lookupD dsvC6.data "Amazon EC2" = [0, 0, 0, 0, 0, 0, 0] := rfl
  refine ⟨⟨by norm_num, by norm_num⟩, rfl, ?_, by norm_num, ?_⟩
  · rw [hlook]
    unfold popStd
    have harg : ((([0, 0, 0, 0, 0, 0, 0] : List ℚ).map
        (fun d => ((d : ℝ) -
          ((([0, 0, 0, 0, 0, 0, 0] : List ℚ).sum / (([0, 0, 0, 0, 0, 0, 0] : List ℚ).length : ℚ) : ℚ) : ℝ)) ^ 2)).sum /
        (([0, 0, 0, 0, 0, 0, 0] : List ℚ).length : ℕ)) = (0 : ℝ) := by
      norm_num
    rw [harg, Real.sqrt_zero]
    norm_num
  · unfold _analyse_idle_services
    have hflat : svcC6.flatMap (idlePerService dsvC6) =
        idlePerService dsvC6 ⟨"Amazon EC2", 30⟩ ++ [] := rfl
    rw [hflat, idlePerService_eq]
    have hcond : ¬ specIdleCond dsvC6 ⟨"Amazon EC2", 30⟩ := by
      intro hc
      have h4 := hc.2.2.2.1
      rw [show (⟨"Amazon EC2", 30⟩ : ServiceCost).cost = 30 from rfl] at h4
      rw [show (⟨"Amazon EC2", 30⟩ : ServiceCost).service = "Amazon EC2" from rfl] at h4
      rw [idleStd_C6] at h4
      norm_num at h4
    rw [if_neg hcond]
    rfl

/-- C6 amended: `_analyse_idle_services` emits exactly one opportunity for
each service, in list order, satisfying: `0.5 < cost < 50`, daily series of
at least 7 points, root-mean-square deviation of the daily series from
`cost / len(daily)` (not from the series mean) below `0.5 × (cost/30)`, and
`cost/30 > 0.01` — each opportunity having priority `medium` iff
`cost > 15` (else `low`), `estimated_savings = round(0.6 × cost, 2)` and
confidence 55 (the fields pinned by `idleOpp`) — and the analyzer
truncates its own output to at most 5 opportunities before the aggregator's
global sort and de-duplication. -/
theorem C6_idle_amended :
    (∀ (services : List ServiceCost) (daily_svc : DailySvc),
      _analyse_idle_services services daily_svc =
        ((specIdleFilter daily_svc services).map
          (fun s => idleOpp (shorten s.service) s.cost (s.cost / 30))).take 5) ∧
    (∀ (services : List ServiceCost) (daily_svc : DailySvc),
      (_analyse_idle_services services daily_svc).length ≤ 5) := by
  constructor
  · intro services m
    unfold _analyse_idle_services
    rw [idle_flatMap_eq]
  · intro services m
    unfold _analyse_idle_services
    exact List.length_take_le 5 _

def regionsC10 : List RegionCost :=
  [⟨"us-east-1", 1000⟩, ⟨"ap-southeast-1-extra-zone-A", 50⟩,
   ⟨"ap-southeast-1-extra-zone-B", 50⟩]

def envC10 : Env :=
  ⟨.ok [], .ok [], .ok regionsC10, .ok [], .ok [], .ok ⟨[], [], []⟩, .ok []⟩

def oppC10A : Opportunity :=
  regionOpp ⟨"ap-southeast-1-extra-zone-A", 50⟩ ⟨"us-east-1", 1000⟩ (50 / 11)

def oppC10B : Opportunity :=
  regionOpp ⟨"ap-southeast-1-extra-zone-B", 50⟩ ⟨"us-east-1", 1000⟩ (50 / 11)

theorem region_waste_C10 : _analyse_region_waste regionsC10 = [oppC10A, oppC10B] := by
  norm_num [_analyse_region_waste, regionsC10, oppC10A, oppC10B, List.flatMap_cons]

def svcC10 : List ServiceCost :=
  [⟨"Amazon ElastiCache Alpha", 30⟩, ⟨"Amazon ElastiCache Alpine", 30⟩]

def dsvC10 : DailySvc :=
  ⟨[], ["Amazon ElastiCache Alpha", "Amazon ElastiCache Alpine"],
   [("Amazon ElastiCache Alpha", List.replicate 30 1),
    ("Amazon ElastiCache Alpine", List.replicate 30 1)]⟩

theorem idleStd_flat : idleStd (List.replicate 30 (1 : ℚ)) 30 = 0 := by
  unfold idleStd
  have harg : (((List.replicate 30 (1 : ℚ)).map
      (fun d => ((d : ℝ) - ((30 : ℚ) : ℝ) / (max (List.replicate 30 (1 : ℚ)).length 1 : ℕ)) ^ 2)).sum /
      (max (List.replicate 30 (1 : ℚ)).length 1 : ℕ)) = (0 : ℝ) := by
    simp only [List.length_replicate, List.map_replicate, List.sum_replicate]
    norm_num
    simp
  rw [harg]
  exact Real.sqrt_zero

theorem idle_services_C10 :
    _analyse_idle_services svcC10 dsvC10 =
      [idleOpp "ElastiCache Alpha" 30 1, idleOpp "ElastiCache Alpine" 30 1] := by
  have hlookA : lookupD dsvC10.data "Amazon ElastiCache Alpha" = List.replicate 30 1 := rfl
  have hlookB : lookupD dsvC10.data "Amazon ElastiCache Alpine" = List.replicate 30 1 := rfl
  have hcondA : specIdleCond dsvC10 ⟨"Amazon ElastiCache Alpha", 30⟩ := by
    refine ⟨by norm_num, by norm_num, ?_, ?_, by norm_num⟩
    · rw [show (⟨"Amazon ElastiCache Alpha", 30⟩ : ServiceCost).service =
          "Amazon ElastiCache Alpha" from rfl, hlookA]
      simp
    · rw [show (⟨"Amazon ElastiCache Alpha", 30⟩ : ServiceCost).service =
          "Amazon ElastiCache Alpha" from rfl, hlookA,
        show (⟨"Amazon ElastiCache Alpha", 30⟩ : ServiceCost).cost = 30 from rfl, idleStd_flat]
      norm_num
  have hcondB : specIdleCond dsvC10 ⟨"Amazon ElastiCache Alpine", 30⟩ := by
    refine ⟨by norm_num, by norm_num, ?_, ?_, by norm_num⟩
    · rw [show (⟨"Amazon ElastiCache Alpine", 30⟩ : ServiceCost).service =
          "Amazon ElastiCache Alpine" from rfl, hlookB]
      simp
    · rw [show (⟨"Amazon ElastiCache Alpine", 30⟩ : ServiceCost).service =
          "Amazon ElastiCache Alpine" from rfl, hlookB,
        show (⟨"Amazon ElastiCache Alpine", 30⟩ : ServiceCost).cost = 30 from rfl, idleStd_flat]
      norm_num
  unfold _analyse_idle_services
  have hflat : svcC10.flatMap (idlePerService dsvC10) =
      idlePerService dsvC10 ⟨"Amazon ElastiCache Alpha", 30⟩ ++
        (idlePerService dsvC10 ⟨"Amazon ElastiCache Alpine", 30⟩ ++ []) := rfl
  rw [hflat, idlePerService_eq, idlePerService_eq, if_pos hcondA, if_pos hcondB]
  show List.take 5 ([idleOpp (shorten "Amazon ElastiCache Alpha") 30 (30 / 30)] ++
      ([idleOpp (shorten "Amazon ElastiCache Alpine") 30 (30 / 30)] ++ [])) = _
  rw [show (30 : ℚ) / 30 = 1 by norm_num]
  rfl

set_option maxRecDepth 4000 in
/-- C10: opportunity ids are built from truncated identifiers — spike and
idle ids from the first 15 characters of the prefix-stripped service name,
region ids from the first 20 characters of the region name — so two distinct
regions (`ap-southeast-1-extra-zone-A/B`) and two distinct services
(`Amazon ElastiCache Alpha/Alpine`) that agree on the truncated prefix
produce opportunities with identical ids, and the aggregator's
de-duplication keeps only the first such opportunity and silently drops the
other, distinct finding. -/
theorem C10_truncated_id_collision :
    (∀ m : DailySvc, (_analyse_service_spikes m).Forall
      (fun o => ∃ s, s ∈ m.services ∧
        o.id = "spike-" ++ pyLower (pyReplace ((shorten s).take 15) " " "-"))) ∧
    (_analyse_region_waste regionsC10).map (·.id) =
      ["region-ap-southeast-1-extra", "region-ap-southeast-1-extra"] ∧
    oppC10A.id = "region-" ++ "ap-southeast-1-extra-zone-A".take 20 ∧
    oppC10A.id = oppC10B.id ∧
    oppC10A ≠ oppC10B ∧
    generate_opportunities envC10 = [oppC10A] ∧
    (_analyse_idle_services svcC10 dsvC10).map (·.id) =
      ["idle-elasticache-alp", "idle-elasticache-alp"] ∧
    idleOpp "ElastiCache Alpha" 30 1 ≠ idleOpp "ElastiCache Alpine" 30 1 ∧
    dedupById (_analyse_idle_services svcC10 dsvC10) =
      [idleOpp "ElastiCache Alpha" 30 1] := by
  refine ⟨?_, ?_, rfl, rfl, ?_, ?_, ?_, ?_, ?_⟩
  · intro m
    rw [List.forall_iff_forall_mem]
    intro o ho
    unfold _analyse_service_spikes at ho
    obtain ⟨svc, hsvc, ho⟩ := List.mem_flatMap.mp ho
    refine ⟨svc, hsvc, ?_⟩
    unfold spikePerService at ho
    simp only [] at ho
    split at ho
    · exact absurd ho (List.not_mem_nil o)
    by_cases hz : _z_scores (lookupD m.data svc) = []
    · rw [if_pos hz] at ho
      rw [if_neg (by norm_num : ¬ ((0 : ℝ) > 2))] at ho
      exact absurd ho (List.not_mem_nil o)
    · rw [if_neg hz] at ho
      repeat split at ho
      all_goals first
        | exact absurd ho (List.not_mem_nil o)
        | (rcases List.mem_singleton.mp ho with rfl; rfl)
  · rw [region_waste_C10]
    rfl
  · intro h
    exact absurd (congrArg Opportunity.title h) (by decide)
  · unfold generate_opportunities
    have h1 : _analyse_cost_trend [] = [] := rfl
    have h2 : _analyse_service_concentration [] = [] := rfl
    have h3 : _analyse_service_spikes ⟨[], [], []⟩ = [] := rfl
    have h5 : _analyse_data_transfer [] = [] := rfl
    have h6 : _analyse_idle_services [] ⟨[], [], []⟩ = [] := rfl
    have h7 : _analyse_monthly_growth [] = [] := rfl
    have h8 : _analyse_scheduling_opportunities [] = [] := rfl
    have h9 : _analyse_storage_optimization [] = [] := rfl
    have h10 : _analyse_savings_plan_coverage (.ok []) = [] := rfl
    have hrb : runBlock envC10 = .ok (_analyse_region_waste regionsC10) := by
      show Except.ok
          (_analyse_cost_trend [] ++ _analyse_service_concentration [] ++
            _analyse_service_spikes ⟨[], [], []⟩ ++ _analyse_region_waste regionsC10 ++
            _analyse_data_transfer [] ++ _analyse_idle_services [] ⟨[], [], []⟩ ++
            _analyse_monthly_growth [] ++ _analyse_scheduling_opportunities [] ++
            _analyse_storage_optimization [] ++
            _analyse_savings_plan_coverage (Except.ok [])) = _
      rw [h1, h2, h3, h5, h6, h7, h8, h9, h10]
      simp
    rw [hrb, region_waste_C10]
    show postprocess [oppC10A, oppC10B] = [oppC10A]
    unfold postprocess dedupById
    have hd : dedupAux [] [oppC10A, oppC10B] = [oppC10A] := by
      simp only [dedupAux, List.mem_singleton, List.not_mem_nil,
        show oppC10B.id = oppC10A.id from rfl]
      simp
    rw [hd]
    rfl
  · rw [idle_services_C10]
    rfl
  · intro h
    exact absurd (congrArg Opportunity.title h) (by decide)
  · rw [idle_services_C10]
    unfold dedupById
    simp only [dedupAux, List.mem_singleton, List.not_mem_nil,
      show (idleOpp "ElastiCache Alpine" 30 1).id = (idleOpp "ElastiCache Alpha" 30 1).id
        from rfl]
    simp

/-! ## Helper lemmas for the non-negativity / confidence-range invariant -/

/-- The invariant of C4 for a single opportunity. -/
def oppInv (o : Opportunity) : Prop :=
  0 ≤ o.estimated_savings ∧ 0 ≤ o.confidence ∧ o.confidence ≤ 100

theorem roundHE_nonneg (x : ℚ) (h : 0 ≤ x) : 0 ≤ roundHE x := by
  simp only [roundHE]
  have hf : (0 : ℤ) ≤ ⌊x⌋ := Int.floor_nonneg.mpr h
  split_ifs <;> omega

theorem roundHE_le (x : ℚ) (B : ℤ) (h : x ≤ B) : roundHE x ≤ B := by
  simp only [roundHE]
  have hfl : (⌊x⌋ : ℚ) ≤ x := Int.floor_le x
  have hfB : ⌊x⌋ ≤ B := by
    have := Int.floor_le_floor h
    simpa using this
  split_ifs with h1 h2 h3
  · exact hfB
  · have hx : (⌊x⌋ : ℚ) + 1 / 2 < x := by linarith
    have : (⌊x⌋ : ℚ) < (B : ℚ) - 1 / 2 := by linarith
    have : ⌊x⌋ < B := by
      by_contra hc
      push_neg at hc
      have : (B : ℚ) ≤ (⌊x⌋ : ℚ) := by exact_mod_cast hc
      linarith
    omega
  · have hx : (⌊x⌋ : ℚ) + 1 / 2 ≤ x := by linarith
    have : ⌊x⌋ < B := by
      by_contra hc
      push_neg at hc
      have : (B : ℚ) ≤ (⌊x⌋ : ℚ) := by exact_mod_cast hc
      linarith
    omega
  · have hx : (⌊x⌋ : ℚ) + 1 / 2 ≤ x := by linarith
    have : ⌊x⌋ < B := by
      by_contra hc
      push_neg at hc
      have : (B : ℚ) ≤ (⌊x⌋ : ℚ) := by exact_mod_cast hc
      linarith
    omega

theorem roundHE_ge (x : ℚ) (B : ℤ) (h : (B : ℚ) ≤ x) : B ≤ roundHE x := by
  simp only [roundHE]
  have hf : B ≤ ⌊x⌋ := Int.le_floor.mpr h
  split_ifs <;> omega

theorem roundHER_ge (x : ℝ) (B : ℤ) (h : (B : ℝ) ≤ x) : B ≤ roundHER x := by
  simp only [roundHER]
  have hf : B ≤ ⌊x⌋ := Int.le_floor.mpr h
  split_ifs <;> omega

theorem round2_nonneg (q : ℚ) (h : 0 ≤ q) : 0 ≤ round2 q := by
  unfold round2
  have := roundHE_nonneg (q * 100) (by positivity)
  positivity

theorem round0_bounds (q : ℚ) (h0 : 0 ≤ q) (h1 : q ≤ 100) :
    0 ≤ round0 q ∧ round0 q ≤ 100 := by
  unfold round0
  constructor
  · exact_mod_cast roundHE_nonneg q h0
  · exact_mod_cast roundHE_le q 100 (by exact_mod_cast h1)

theorem trend_inv (daily : List CostPoint) :
    ∀ o ∈ _analyse_cost_trend daily, oppInv o := by
  intro o ho
  unfold _analyse_cost_trend at ho
  split at ho
  · exact absurd ho (List.not_mem_nil o)
  simp only [] at ho
  rcases List.mem_append.mp ho with ho | ho
  · split at ho
    · rename_i hcond
      split at ho
      · rcases List.mem_singleton.mp ho with rfl
        obtain ⟨hslope, hrsq, havg⟩ := hcond
        have hb := lr_r_sq_bounds (daily.map (·.cost))
        refine ⟨round2_nonneg _ ?_, ?_, ?_⟩
        · have : (0 : ℚ) ≤ (_linear_regression (daily.map (·.cost))).1 * 30 :=
            mul_nonneg hslope.le (by norm_num)
          exact mul_nonneg this (by norm_num)
        · exact (round0_bounds _ (by nlinarith [hb.1]) (by nlinarith [hb.2])).1
        · exact (round0_bounds _ (by nlinarith [hb.1]) (by nlinarith [hb.2])).2
      · exact absurd ho (List.not_mem_nil o)
    · exact absurd ho (List.not_mem_nil o)
  · split at ho
    · split at ho
      · rename_i hprior
        split at ho
        · rename_i hwow
          rcases List.mem_singleton.mp ho with rfl
          have ht : (0 : ℚ) <
              (((daily.map (·.cost)).drop ((daily.map (·.cost)).length - 7)).sum -
                (((daily.map (·.cost)).drop ((daily.map (·.cost)).length - 14)).take 7).sum) /
              (((daily.map (·.cost)).drop ((daily.map (·.cost)).length - 14)).take 7).sum := by
            nlinarith [hwow]
          have hdiff : (0 : ℚ) <
              ((daily.map (·.cost)).drop ((daily.map (·.cost)).length - 7)).sum -
                (((daily.map (·.cost)).drop ((daily.map (·.cost)).length - 14)).take 7).sum := by
            have h2 := mul_pos ht hprior
            rwa [div_mul_cancel₀ _ (ne_of_gt hprior)] at h2
          exact ⟨round2_nonneg _ (mul_nonneg hdiff.le (by norm_num)),
            by norm_num [wowOpp], by norm_num [wowOpp]⟩
        · exact absurd ho (List.not_mem_nil o)
      · exact absurd ho (List.not_mem_nil o)
    · exact absurd ho (List.not_mem_nil o)

theorem hhi_nil : _hhi [] = 0 := by norm_num [_hhi]

theorem conc_inv (services : List ServiceCost)
    (hs : services.Pairwise (fun a b => b.cost ≤ a.cost)) :
    ∀ o ∈ _analyse_service_concentration services, oppInv o := by
  intro o ho
  unfold _analyse_service_concentration at ho
  split at ho
  · exact absurd ho (List.not_mem_nil o)
  rename_i hnil
  simp only [] at ho
  split at ho
  · rename_i hcond
    rcases List.mem_singleton.mp ho with rfl
    have hfil_ne : services.filter (fun s => decide (0 < s.cost)) ≠ [] := by
      intro hn
      have hc := hcond.1
      rw [hn] at hc
      simp only [List.map_nil] at hc
      rw [hhi_nil] at hc
      norm_num at hc
    obtain ⟨p, hp⟩ := List.exists_mem_of_ne_nil _ hfil_ne
    have hpmem := (List.mem_filter.mp hp).1
    have hppos : 0 < p.cost := of_decide_eq_true (List.mem_filter.mp hp).2
    have htop : 0 < (services.headD default).cost := by
      cases services with
      | nil => exact absurd rfl hnil
      | cons a rest =>
        rcases List.mem_cons.mp hpmem with rfl | hpr
        · simpa using hppos
        · have hle := List.rel_of_pairwise_cons hs hpr
          simp only [List.headD_cons]
          linarith
    exact ⟨round2_nonneg _ (mul_nonneg htop.le (by norm_num)),
      by norm_num [concOpp], by norm_num [concOpp]⟩
  · exact absurd ho (List.not_mem_nil o)

theorem spikeOpp_inv (ss : String) (pk avg excess : ℚ) (z : ℝ)
    (hexc : excess > 0.5) (hz : z > 2) :
    oppInv (spikeOpp ss pk avg excess z) ∧ (spikeOpp ss pk avg excess z).confidence ≤ 95 := by
  have hzge : (80 : ℤ) ≤ roundHER (50 + z * 15) := by
    apply roundHER_ge
    push_cast
    nlinarith
  have hmin_le : min 95 (roundHER (50 + z * 15)) ≤ 95 := min_le_left _ _
  have hmin_ge : (80 : ℤ) ≤ min 95 (roundHER (50 + z * 15)) := le_min (by norm_num) hzge
  refine ⟨⟨round2_nonneg _ (by nlinarith), ?_, ?_⟩, ?_⟩
  · show (0 : ℚ) ≤ ((min 95 (roundHER (50 + z * 15)) : ℤ) : ℚ)
    exact_mod_cast le_trans (by norm_num) hmin_ge
  · show ((min 95 (roundHER (50 + z * 15)) : ℤ) : ℚ) ≤ 100
    exact_mod_cast le_trans hmin_le (by norm_num)
  · show ((min 95 (roundHER (50 + z * 15)) : ℤ) : ℚ) ≤ 95
    exact_mod_cast hmin_le

theorem spike_inv (m : DailySvc) :
    ∀ o ∈ _analyse_service_spikes m, oppInv o ∧ o.confidence ≤ 95 := by
  intro o ho
  unfold _analyse_service_spikes at ho
  obtain ⟨svc, hsvc, ho⟩ := List.mem_flatMap.mp ho
  unfold spikePerService at ho
  simp only [] at ho
  split at ho
  · exact absurd ho (List.not_mem_nil o)
  by_cases hz : _z_scores (lookupD m.data svc) = []
  · rw [if_pos hz] at ho
    rw [if_neg (by norm_num : ¬ ((0 : ℝ) > 2))] at ho
    exact absurd ho (List.not_mem_nil o)
  · rw [if_neg hz] at ho
    split at ho
    · rename_i hgt
      split at ho
      · rename_i hexc
        rcases List.mem_singleton.mp ho with rfl
        exact spikeOpp_inv _ _ _ _ _ hexc hgt
      · exact absurd ho (List.not_mem_nil o)
    · exact absurd ho (List.not_mem_nil o)

theorem region_inv (regions : List RegionCost) :
    ∀ o ∈ _analyse_region_waste regions, oppInv o := by
  intro o ho
  unfold _analyse_region_waste at ho
  split at ho
  · exact absurd ho (List.not_mem_nil o)
  simp only [] at ho
  obtain ⟨r, hr, ho⟩ := List.mem_flatMap.mp ho
  repeat' split at ho
  all_goals
    first
      | exact absurd ho (List.not_mem_nil o)
      | (rename_i hcond
         rcases List.mem_singleton.mp ho with rfl
         exact ⟨round2_nonneg _ (by nlinarith [hcond.2.2]),
           by norm_num [regionOpp], by norm_num [regionOpp]⟩)

theorem dt_inv (usage_types : List UsageTypeCost) :
    ∀ o ∈ _analyse_data_transfer usage_types, oppInv o := by
  intro o ho
  unfold _analyse_data_transfer at ho
  simp only [] at ho
  split at ho
  · rename_i hcond
    rcases List.mem_singleton.mp ho with rfl
    exact ⟨round2_nonneg _ (by nlinarith [hcond]), by norm_num [dtOpp], by norm_num [dtOpp]⟩
  · exact absurd ho (List.not_mem_nil o)

theorem storage_inv (usage_types : List UsageTypeCost) :
    ∀ o ∈ _analyse_storage_optimization usage_types, oppInv o := by
  intro o ho
  unfold _analyse_storage_optimization at ho
  simp only [] at ho
  split at ho
  · rename_i hcond
    rcases List.mem_singleton.mp ho with rfl
    exact ⟨round2_nonneg _ (by nlinarith [hcond]), by norm_num [storOpp], by norm_num [storOpp]⟩
  · exact absurd ho (List.not_mem_nil o)

theorem mem_specIdleFilter (m : DailySvc) (s : ServiceCost) :
    ∀ (services : List ServiceCost), s ∈ specIdleFilter m services → specIdleCond m s := by
  intro services
  induction services with
  | nil =>
    intro h
    exact absurd h (List.not_mem_nil s)
  | cons a rest ih =>
    intro h
    rw [specIdleFilter] at h
    split at h
    · rename_i hc
      rcases List.mem_cons.mp h with rfl | h2
      · exact hc
      · exact ih h2
    · exact ih h

theorem idle_inv (services : List ServiceCost) (m : DailySvc) :
    ∀ o ∈ _analyse_idle_services services m, oppInv o := by
  intro o ho
  unfold _analyse_idle_services at ho
  have ho2 := List.mem_of_mem_take ho
  rw [idle_flatMap_eq] at ho2
  obtain ⟨s, hs, rfl⟩ := List.mem_map.mp ho2
  have hc := mem_specIdleFilter m s _ hs
  exact ⟨round2_nonneg _ (by nlinarith [hc.1]), by norm_num [idleOpp], by norm_num [idleOpp]⟩

theorem monthly_inv (monthly : List MonthCost) :
    ∀ o ∈ _analyse_monthly_growth monthly, oppInv o := by
  intro o ho
  unfold _analyse_monthly_growth at ho
  split at ho
  · exact absurd ho (List.not_mem_nil o)
  simp only [] at ho
  split at ho
  · rename_i hcond
    by_cases hz : (monthly.map (·.cost)).sum / ((monthly.map (·.cost)).length : ℚ) = 0
    · rw [if_pos hz] at ho
      rw [if_neg (by norm_num : ¬ ((0 : ℚ) > 8))] at ho
      exact absurd ho (List.not_mem_nil o)
    · rw [if_neg hz] at ho
      split at ho
      · rcases List.mem_singleton.mp ho with rfl
        have hb := lr_r_sq_bounds (monthly.map (·.cost))
        refine ⟨round2_nonneg _ (by nlinarith [hcond.1]), ?_, ?_⟩
        · exact (round0_bounds _ (by nlinarith [hb.1]) (by nlinarith [hb.2])).1
        · exact (round0_bounds _ (by nlinarith [hb.1]) (by nlinarith [hb.2])).2
      · exact absurd ho (List.not_mem_nil o)
  · exact absurd ho (List.not_mem_nil o)

theorem sched_inv (daily : List CostPoint) :
    ∀ o ∈ _analyse_scheduling_opportunities daily, oppInv o := by
  intro o ho
  unfold _analyse_scheduling_opportunities at ho
  split at ho
  · exact absurd ho (List.not_mem_nil o)
  simp only [] at ho
  split at ho
  · exact absurd ho (List.not_mem_nil o)
  rcases List.mem_append.mp ho with ho | ho
  · split at ho
    · split at ho
      · rename_i hexc
        rcases List.mem_singleton.mp ho with rfl
        exact ⟨round2_nonneg _ (by nlinarith [hexc]),
          by norm_num [schedOpp1], by norm_num [schedOpp1]⟩
      · exact absurd ho (List.not_mem_nil o)
    · exact absurd ho (List.not_mem_nil o)
  · split at ho
    · split at ho
      · rename_i hcv
        rcases List.mem_singleton.mp ho with rfl
        exact ⟨round2_nonneg _ (by nlinarith [hcv.2]),
          by norm_num [schedOpp2], by norm_num [schedOpp2]⟩
      · exact absurd ho (List.not_mem_nil o)
    · exact absurd ho (List.not_mem_nil o)

theorem coverage_inv (cov : Except String (List CoverageRec)) :
    ∀ o ∈ _analyse_savings_plan_coverage cov, oppInv o := by
  intro o ho
  cases cov with
  | error e => exact absurd ho (List.not_mem_nil o)
  | ok resp =>
    obtain ⟨r, hr, ho⟩ := List.mem_flatMap.mp ho
    unfold coveragePerRec at ho
    simp only [] at ho
    split at ho
    · rename_i hcond
      rcases List.mem_singleton.mp ho with rfl
      exact ⟨round2_nonneg _ (by nlinarith [hcond.2]),
        by norm_num [spOpp], by norm_num [spOpp]⟩
    · exact absurd ho (List.not_mem_nil o)

theorem errOpp_inv (e : String) : oppInv (errOpp e) := by
  refine ⟨le_refl 0, le_refl 0, by norm_num [errOpp]⟩

/-- C4: for every environment whose service-costs query result is sorted by
cost descending (which `_fetch_service_costs` guarantees), every element of
the output of `generate_opportunities` — and hence every opportunity emitted
by any analyzer that survives to the output — has `estimated_savings ≥ 0`
and `confidence ∈ [0, 100]`; moreover the spike analyzer's confidence
formula `50 + z·15`, which could exceed 100 for large z-scores, is clamped
by `min(95, ·)`, so every spike confidence is also at most 95. -/
theorem C4_nonnegativity_invariant :
    (∀ env : Env,
      (∀ s, env.services = .ok s → s.Pairwise (fun a b => b.cost ≤ a.cost)) →
      (generate_opportunities env).Forall oppInv) ∧
    (∀ m : DailySvc, (_analyse_service_spikes m).Forall (fun o => o.confidence ≤ 95)) := by
  constructor
  · intro env hsorted
    rw [List.forall_iff_forall_mem]
    intro o ho
    rcases generate_opportunities_cases env with ⟨l, hrb, hout⟩ | ⟨e, hrb, hout⟩
    · rw [hout] at ho
      have hol := mem_of_mem_postprocess ho
      obtain ⟨d, s, r, u, m, dv, c⟩ := env
      cases d with
      | error e => exact Except.noConfusion hrb
      | ok dl =>
      cases s with
      | error e => exact Except.noConfusion hrb
      | ok sv =>
      cases r with
      | error e => exact Except.noConfusion hrb
      | ok rg =>
      cases u with
      | error e => exact Except.noConfusion hrb
      | ok ut =>
      cases m with
      | error e => exact Except.noConfusion hrb
      | ok mo =>
      cases dv with
      | error e => exact Except.noConfusion hrb
      | ok dsv =>
      have hs : sv.Pairwise (fun a b => b.cost ≤ a.cost) := hsorted sv rfl
      have hl : _analyse_cost_trend dl ++ _analyse_service_concentration sv ++
          _analyse_service_spikes dsv ++ _analyse_region_waste rg ++
          _analyse_data_transfer ut ++ _analyse_idle_services sv dsv ++
          _analyse_monthly_growth mo ++ _analyse_scheduling_opportunities dl ++
          _analyse_storage_optimization ut ++ _analyse_savings_plan_coverage c = l := by
        injection hrb
      rw [← hl] at hol
      simp only [List.mem_append] at hol
      rcases hol with ((((((((h | h) | h) | h) | h) | h) | h) | h) | h) | h
      · exact trend_inv dl o h
      · exact conc_inv sv hs o h
      · exact (spike_inv dsv o h).1
      · exact region_inv rg o h
      · exact dt_inv ut o h
      · exact idle_inv sv dsv o h
      · exact monthly_inv mo o h
      · exact sched_inv dl o h
      · exact storage_inv ut o h
      · exact coverage_inv c o h
    · rw [hout] at ho
      have hol := mem_of_mem_postprocess ho
      rcases List.mem_singleton.mp hol with rfl
      exact errOpp_inv e
  · intro m
    rw [List.forall_iff_forall_mem]
    intro o ho
    exact (spike_inv m o ho).2

/-- Witness for `C4_nonnegativity_invariant` at a concrete environment (a
total provider failure, whose sortedness hypothesis holds vacuously). -/
theorem C4_nonnegativity_invariant_witness :
    (generate_opportunities ⟨.error "x", .error "x", .error "x", .error "x", .error "x",
        .error "x", .error "x"⟩).Forall oppInv :=
  C4_nonnegativity_invariant.1
    ⟨.error "x", .error "x", .error "x", .error "x", .error "x", .error "x", .error "x"⟩
    (fun _ h => Except.noConfusion h)
